import Mathlib

/-!
Verification of the markdown-to-Slack-blocks transformation (`src/parser/internal.ts`).

The token-tree walker is embedded shallowly: `marked` tokens become inductive
types, the module-level `recursionDepth` counter becomes an explicitly threaded
`Nat` state, and thrown errors become `Except` results.  The collaborators that
are not part of the repository snapshot (`src/validation.ts`, `src/slack.ts`)
are modelled from the specification, and each such definition is marked
`Modelled from the spec:` in its doc comment.
-/

namespace Mack

/-! ### String helpers (JS semantics) -/

/-- JS `a || b` on strings: the empty string is falsy. -/
def jsOr (a b : String) : String := if a = "" then b else a

/-- Characters of `s` before the first occurrence of `c`
(JS `s.split(c)[0]`). -/
def charsBefore (c : Char) (s : List Char) : List Char :=
  s.takeWhile (fun x => x ≠ c)

/-- ASCII letter or digit, the character class of the extension regex
`[a-zA-Z0-9]` in `detectFileExtension`. -/
def isAsciiAlnum (c : Char) : Bool :=
  (('a' ≤ c) && (c ≤ 'z')) || (('A' ≤ c) && (c ≤ 'Z')) || (('0' ≤ c) && (c ≤ '9'))

/-- Lower-case an ASCII character (JS `toLowerCase` on the ASCII range). -/
def lowerChar (c : Char) : Char :=
  if ('A' ≤ c) && (c ≤ 'Z') then Char.ofNat (c.toNat + 32) else c

/-- Concatenate a list of strings (JS `array.join('')`). -/
def joinStr (l : List String) : String := l.foldl (fun a b => a ++ b) ""

/-- Last `/`-separated segment of a character list
(JS `s.split('/').pop()`). -/
def lastSeg : List Char → List Char → List Char
  | acc, [] => acc
  | _, '/' :: rest => lastSeg [] rest
  | acc, c :: rest => lastSeg (acc ++ [c]) rest

/-- Replace every newline by a newline followed by `"> "`
(JS `text.replace(/\n/g, '\n> ')` in `parseBlockquote`). -/
def replaceNlChars : List Char → List Char
  | [] => []
  | '\n' :: rest => '\n' :: '>' :: ' ' :: replaceNlChars rest
  | c :: rest => c :: replaceNlChars rest

/-- String form of `replaceNlChars`. -/
def replaceNl (s : String) : String := String.mk (replaceNlChars s.data)

/-! ### Modelled validation utilities (`src/validation.ts` is not in the
source snapshot; only its callers are). -/

/-- Modelled from the spec: the URL validator of `src/validation.ts`
"accepts `http(s)` absolute URLs, `data:` URLs, and bare relative paths;
rejects everything else" (spec §6).  A bare relative path is taken to be a
non-empty string containing no scheme separator; an absolute URL needs a
non-empty remainder after its scheme (the tests reject `https://`). -/
def validateUrl (url : String) : Bool :=
  if "http://".data.isPrefixOf url.data then 7 < url.data.length
  else if "https://".data.isPrefixOf url.data then 8 < url.data.length
  else if "data:".data.isPrefixOf url.data then 5 < url.data.length
  else url ≠ "" && !(url.data.contains ':')

/-- Modelled from the spec: the fixed nesting ceiling enforced by
`validateRecursionDepth` in `src/validation.ts` ("exceeding a fixed nesting
ceiling fails fast with a recursion-limit error", spec §4.3).  The numeric
value is not recorded in the available sources; 100 is used here, and every
theorem below depends only on the constant, not on its value. -/
def MAX_RECURSION_DEPTH : Nat := 100

/-- Modelled from the spec: `safeTruncate` of `src/validation.ts`,
"boundary-safe truncation that never splits a multi-unit character"
(spec §6), taken as truncation to a character count. -/
def safeTruncate (s : String) (limit : Nat) : String := String.mk (s.data.take limit)

/-! ### File-extension classification (`src/parser/internal.ts` lines 52-93) -/

/-- The `FILE_EXTENSIONS` allow-list. -/
def FILE_EXTENSIONS : List String :=
  ["pdf", "doc", "docx", "xls", "xlsx", "ppt", "pptx", "zip", "rar", "7z",
   "tar", "gz", "txt", "csv", "json", "xml", "jpg", "jpeg", "png", "gif",
   "bmp", "svg"]

/-- `detectFileExtension`: strip the query string and fragment, then match
`/\.([a-zA-Z0-9]+)$/` and lower-case the captured group. -/
def detectFileExtension (href : String) : Option String :=
  let pathname := charsBefore '#' (charsBefore '?' href.data)
  let rev := pathname.reverse
  let run := rev.takeWhile isAsciiAlnum
  match rev.drop run.length with
  | '.' :: _ =>
    if run.isEmpty then none
    else some (String.mk ((run.reverse).map lowerChar))
  | _ => none

/-- `isFileType`: the extension is present and on the allow-list. -/
def isFileType (extension : Option String) : Bool :=
  match extension with
  | none => false
  | some e => FILE_EXTENSIONS.contains e

/-- `extractFileName`: strip the query string and fragment, take the last
path segment, default to `"Document"` when it is empty. -/
def extractFileName (href : String) : String :=
  let pathname := charsBefore '#' (charsBefore '?' href.data)
  let seg := lastSeg [] pathname
  if seg.isEmpty then "Document" else String.mk seg

/-! ### Output data model (the Slack block shapes of `src/slack.ts`) -/

/-- Column alignment that produces an explicit setting (`'center' | 'right'`). -/
inductive Align where
  | center
  | right
deriving DecidableEq, Repr

/-- Alignment values of a `marked` table token (`'left' | 'center' | 'right'`;
the absent case is `Option.none`). -/
inductive MAlign where
  | left
  | center
  | right
deriving DecidableEq, Repr

/-- A `ColumnSetting`: `align none` is the empty placeholder object. -/
structure ColumnSetting where
  align : Option Align
deriving DecidableEq, Repr

/-- The single style flag set on a rich-text `text` element (each source site
sets exactly one of `bold`, `italic`, `strike`, `code`). -/
inductive RTStyle where
  | bold
  | italic
  | strike
  | code
deriving DecidableEq, Repr

/-- A `RichTextSectionElement`: a (possibly styled) text element or a link. -/
inductive RTElement where
  | text (text : String) (style : Option RTStyle)
  | link (text : String) (url : String)
deriving DecidableEq, Repr

/-- A `TableCell`: raw text, or a list of rich-text sections (in the source a
rich cell wraps its elements in a single `rich_text_section`). -/
inductive TCell where
  | raw_text (text : String)
  | rich_text (sections : List (List RTElement))
deriving DecidableEq, Repr

/-- Style of a rich-text list (`'bullet' | 'ordered'`). -/
inductive ListStyle where
  | bullet
  | ordered
deriving DecidableEq, Repr

/-- The closed set of output blocks produced by the parser.  `rtList`,
`rtCode` and `rtQuote` are the three rich-text block shapes built by
`richTextList`, `richTextCode` and `richTextQuote`; a rich-text list item is
one `rich_text_section`, i.e. a list of elements. -/
inductive Block where
  | section (text : String)
  | header (text : String)
  | divider
  | image (url : String) (altText : String) (title : Option String)
  | file (externalId : String)
  | video (videoUrl : String) (thumbnailUrl : String) (title : String) (altText : String)
  | table (rows : List (List TCell)) (columnSettings : Option (List ColumnSetting))
  | rtList (items : List (List RTElement)) (style : ListStyle) (indent : Nat)
  | rtCode (text : String)
  | rtQuote (elements : List RTElement)
deriving DecidableEq, Repr

/-- Errors thrown by the collaborators: validation failures of the block
builders and the recursion-limit error of `validateRecursionDepth`. -/
inductive MackError where
  | validation (msg : String)
  | recursionLimit
deriving DecidableEq, Repr

/-- `isSectionBlock` (line 118). -/
def isSectionBlock : Block → Bool
  | .section _ => true
  | _ => false

/-- Whether a block is a File block (`block.type === 'file'`). -/
def isFileBlock : Block → Bool
  | .file _ => true
  | _ => false

/-! ### Modelled block builders (`src/slack.ts` is not in the source
snapshot; only its tests and callers are). -/

/-- Modelled from the spec: `section` of `src/slack.ts` builds a Section
block, truncating the text to the 3000-character ceiling (spec §6). -/
def sectionB (text : String) : Block := .section (safeTruncate text 3000)

/-- Modelled from the spec: `header` of `src/slack.ts`, truncating to the
150-character ceiling (spec §6). -/
def headerB (text : String) : Block := .header (safeTruncate text 150)

/-- Modelled from the spec: `image` of `src/slack.ts` fails on an empty or
invalid URL ("URL validation before creating image blocks") and truncates the
alt text and title to 2000 characters (spec §6 and the unit tests). -/
def imageB (url : String) (altText : String) (title : Option String) :
    Except MackError Block :=
  if url = "" then .error (.validation "Image URL must be a non-empty string")
  else if !validateUrl url then .error (.validation "Invalid image URL")
  else .ok (.image url (safeTruncate altText 2000) (title.map (safeTruncate · 2000)))

/-- Modelled from the spec: `file` of `src/slack.ts` fails on an empty
external id (its tests) and records `source: 'remote'`. -/
def fileB (externalId : String) : Except MackError Block :=
  if externalId = "" then .error (.validation "File external_id must be a non-empty string")
  else .ok (.file externalId)

/-- Modelled from the spec: `video` of `src/slack.ts` fails on empty required
fields and on invalid URLs, and truncates the title to 200 characters
(spec §6 and the unit tests). -/
def videoB (videoUrl thumbnailUrl title altText : String) : Except MackError Block :=
  if videoUrl = "" then .error (.validation "Video URL must be a non-empty string")
  else if thumbnailUrl = "" then .error (.validation "Video thumbnail URL must be a non-empty string")
  else if title = "" then .error (.validation "Video title must be a non-empty string")
  else if altText = "" then .error (.validation "Video alt text must be a non-empty string")
  else if !validateUrl videoUrl then .error (.validation "Invalid video URL")
  else if !validateUrl thumbnailUrl then .error (.validation "Invalid thumbnail URL")
  else .ok (.video videoUrl thumbnailUrl (safeTruncate title 200) (safeTruncate altText 2000))

/-- Modelled from the spec: `table` of `src/slack.ts` truncates to at most
100 rows, 20 cells per row and 20 column settings (spec §6). -/
def tableB (rows : List (List TCell)) (columnSettings : Option (List ColumnSetting)) : Block :=
  .table ((rows.take 100).map (fun r => r.take 20)) (columnSettings.map (fun s => s.take 20))

/-- Modelled from the spec: `richTextList` of `src/slack.ts`. -/
def richTextListB (items : List (List RTElement)) (style : ListStyle) (indent : Nat) : Block :=
  .rtList items style indent

/-- Modelled from the spec: `richTextCode` of `src/slack.ts`. -/
def richTextCodeB (text : String) : Block := .rtCode text

/-- Modelled from the spec: `richTextQuote` of `src/slack.ts`. -/
def richTextQuoteB (elements : List RTElement) : Block := .rtQuote elements

/-! ### Inline tokens (`PhrasingToken`, lines 38-47) -/

/-- A `marked` inline token.  `text` on the container kinds is the raw inner
source text carried by the tokenizer (read by `tokensToRichTextElements`);
`tokens` is the parsed child list (read by `parseMrkdwn`). -/
inductive PhrasingToken where
  | link (href : String) (title : Option String) (text : String) (tokens : List PhrasingToken)
  | em (text : String) (tokens : List PhrasingToken)
  | strong (text : String) (tokens : List PhrasingToken)
  | del (text : String) (tokens : List PhrasingToken)
  | br (raw : String)
  | image (href : String) (text : String) (title : Option String)
  | codespan (text : String) (raw : String)
  | txt (text : String) (raw : String)
  | html (text : String) (raw : String)

namespace PhrasingToken

/-- JS `'text' in token ? token.text : undefined`: every kind except `br`
carries a `text` field. -/
def textField : PhrasingToken → Option String
  | .link _ _ t _ => some t
  | .em t _ => some t
  | .strong t _ => some t
  | .del t _ => some t
  | .br _ => none
  | .image _ t _ => some t
  | .codespan t _ => some t
  | .txt t _ => some t
  | .html t _ => some t

end PhrasingToken

/-- `parsePlainText` (lines 95-116): unwrap containers to their leaf text. -/
def parsePlainText : PhrasingToken → List String
  | .link _ _ _ tokens => parsePlainTextList tokens
  | .em _ tokens => parsePlainTextList tokens
  | .strong _ tokens => parsePlainTextList tokens
  | .del _ tokens => parsePlainTextList tokens
  | .br _ => []
  | .image href _ title => [title.getD href]
  | .codespan _ raw => [raw]
  | .txt _ raw => [raw]
  | .html _ raw => [raw]
where
  /-- `element.tokens.flatMap(child => parsePlainText(child))`. -/
  parsePlainTextList : List PhrasingToken → List String
  | [] => []
  | t :: ts => parsePlainText t ++ parsePlainTextList ts

/-! ### The phrase renderer `parseMrkdwn` (lines 122-185).

The module-level `recursionDepth` counter (line 50) is threaded explicitly:
each function takes the counter's current value and returns its value at
exit.  `parseMrkdwn` increments on entry and, in a `finally`, decrements on
every exit including thrown failure; `validateRecursionDepth` (modelled
above through `MAX_RECURSION_DEPTH`) throws once the counter exceeds the
ceiling. -/

mutual

/-- `parseMrkdwn`: render one inline token to mrkdwn markup.  The `image`
case is excluded by the TypeScript signature and never reached from
`parsePhrasingContent`; like `br` and `html` it falls to the `default`
branch returning the empty string. -/
def parseMrkdwnS : PhrasingToken → Nat → Except MackError String × Nat
  | e, depth =>
    let d := depth + 1
    let r : Except MackError String × Nat :=
      if MAX_RECURSION_DEPTH < d then (.error .recursionLimit, d)
      else
        match e with
        | .link href _ _ tokens =>
          if href ≠ "" && validateUrl href then
            match parseMrkdwnListS tokens d with
            | (.ok s, d2) => (.ok ("<" ++ href ++ "|" ++ s ++ "> "), d2)
            | (.error err, d2) => (.error err, d2)
          else
            parseMrkdwnListS tokens d
        | .em _ tokens =>
          match parseMrkdwnListS tokens d with
          | (.ok s, d2) => (.ok ("_" ++ s ++ "_"), d2)
          | (.error err, d2) => (.error err, d2)
        | .codespan t _ => (.ok ("`" ++ t ++ "`"), d)
        | .strong _ tokens =>
          match parseMrkdwnListS tokens d with
          | (.ok s, d2) => (.ok ("*" ++ s ++ "*"), d2)
          | (.error err, d2) => (.error err, d2)
        | .txt t _ => (.ok t, d)
        | .del _ tokens =>
          match parseMrkdwnListS tokens d with
          | (.ok s, d2) => (.ok ("~" ++ s ++ "~"), d2)
          | (.error err, d2) => (.error err, d2)
        | .br _ => (.ok "", d)
        | .html _ _ => (.ok "", d)
        | .image _ _ _ => (.ok "", d)
    (r.1, r.2 - 1)

/-- `element.tokens.flatMap(child => parseMrkdwn(child)).join('')`: children
are rendered left to right; a thrown error propagates at once (the already
finished children having restored the counter). -/
def parseMrkdwnListS : List PhrasingToken → Nat → Except MackError String × Nat
  | [], d => (.ok "", d)
  | t :: ts, d =>
    match parseMrkdwnS t d with
    | (.ok s, d2) =>
      match parseMrkdwnListS ts d2 with
      | (.ok s2, d3) => (.ok (s ++ s2), d3)
      | (.error err, d3) => (.error err, d3)
    | (.error err, d2) => (.error err, d2)

end

/-- `addMrkdwn` (lines 187-198): append to the text of the last block when it
is a Section with a text object, else push a new Section. -/
def addMrkdwn (content : String) (accumulator : List Block) : List Block :=
  match accumulator.getLast? with
  | some (.section t) => accumulator.dropLast ++ [.section (t ++ content)]
  | _ => accumulator ++ [sectionB content]

/-- The file name chosen by `parsePhrasingContent` for a file link (lines
227-230): the text-derived name whenever the display text carries any
extension, else the URL-derived name. -/
def linkFileName (href linkText : String) : String :=
  if (detectFileExtension linkText).isSome then extractFileName linkText
  else extractFileName href

/-- `parsePhrasingContent` (lines 200-246), with the output accumulator
passed and returned explicitly. -/
def parsePhrasingContentS (element : PhrasingToken) (accumulator : List Block)
    (d : Nat) : Except MackError (List Block) × Nat :=
  match element with
  | .image href text title =>
    match imageB href (jsOr text (jsOr (title.getD "") href)) title with
    | .ok b => (.ok (accumulator ++ [b]), d)
    | .error _ => (.ok accumulator, d)
  | .link href title text tokens =>
    let linkText := joinStr (parsePlainText.parsePlainTextList tokens)
    let urlExtension := detectFileExtension href
    let textExtension := detectFileExtension linkText
    let fileExtension := urlExtension <|> textExtension
    if isFileType fileExtension then
      match fileB (linkFileName href linkText) with
      | .ok fb => (.ok (accumulator ++ [fb]), d)
      | .error _ =>
        match parseMrkdwnS (.link href title text tokens) d with
        | (.ok s, d2) => (.ok (addMrkdwn s accumulator), d2)
        | (.error err, d2) => (.error err, d2)
    else
      match parseMrkdwnS (.link href title text tokens) d with
      | (.ok s, d2) => (.ok (addMrkdwn s accumulator), d2)
      | (.error err, d2) => (.error err, d2)
  | e =>
    match parseMrkdwnS e d with
    | (.ok s, d2) => (.ok (addMrkdwn s accumulator), d2)
    | (.error err, d2) => (.error err, d2)

/-- The `reduce` of `parseParagraph` (lines 248-255) over an explicit
starting accumulator. -/
def parseParagraphAuxS : List PhrasingToken → List Block → Nat →
    Except MackError (List Block) × Nat
  | [], acc, d => (.ok acc, d)
  | t :: ts, acc, d =>
    match parsePhrasingContentS t acc d with
    | (.ok acc2, d2) => parseParagraphAuxS ts acc2 d2
    | (.error err, d2) => (.error err, d2)

/-- `parseParagraph` (lines 248-255). -/
def parseParagraphS (tokens : List PhrasingToken) (d : Nat) :
    Except MackError (List Block) × Nat :=
  parseParagraphAuxS tokens [] d

/-! ### The rich-element converter (`tokensToRichTextElements`, lines
336-437) -/

/-- The contribution of one token to `tokensToRichTextElements`.  The
`strong`/`em`/`del`/`link` cases read only the first-level `text` field of
each child (`(t as marked.Tokens.Text).text || ''`); the default case keeps
any token that carries a `text` field and drops the rest (`br`). -/
def tokenToRichTextElements : PhrasingToken → List RTElement
  | .txt t _ => [.text t none]
  | .strong _ tokens =>
    [.text (joinStr (tokens.map (fun t => (t.textField.getD "")))) (some .bold)]
  | .em _ tokens =>
    [.text (joinStr (tokens.map (fun t => (t.textField.getD "")))) (some .italic)]
  | .del _ tokens =>
    [.text (joinStr (tokens.map (fun t => (t.textField.getD "")))) (some .strike)]
  | .codespan t _ => [.text t (some .code)]
  | .link href _ _ tokens =>
    let linkText := joinStr (tokens.map (fun t => (t.textField.getD "")))
    if validateUrl href then [.link linkText href]
    else [.text linkText none]
  | .image _ text title => [.text (jsOr text (jsOr (title.getD "") "[image]")) none]
  | .br _ => []
  | .html t _ => [.text t none]

/-- `tokensToRichTextElements` (lines 336-437). -/
def tokensToRichTextElements (tokens : List PhrasingToken) : List RTElement :=
  tokens.flatMap tokenToRichTextElements

/-! ### The markup-form table builder (lines 439-524) -/

/-- A `marked` table cell: the parsed child tokens. -/
structure TCellTok where
  tokens : List PhrasingToken

/-- `parseTableCellToBlock` (lines 440-474): rich cell when any child token
is `strong`/`em`/`del`/`link`/`codespan`, else raw text from the children's
`text` fields. -/
def parseTableCellToBlock (cell : TCellTok) : TCell :=
  let hasComplexFormatting := cell.tokens.any fun t =>
    match t with
    | .strong _ _ => true
    | .em _ _ => true
    | .del _ _ => true
    | .link _ _ _ _ => true
    | .codespan _ _ => true
    | _ => false
  if hasComplexFormatting then
    .rich_text [tokensToRichTextElements cell.tokens]
  else
    .raw_text (joinStr (cell.tokens.map (fun t => (t.textField.getD ""))))

/-- The column-settings loop of `parseTableRowsToBlocks` (lines 497-508):
for each of the first 20 alignment entries, a `center`/`right` entry pushes
an explicit setting, and any other entry pushes an empty placeholder only
when the settings list is already non-empty. -/
def buildColumnSettings (align : List (Option MAlign)) : List ColumnSetting :=
  (align.take 20).foldl
    (fun settings a =>
      match a with
      | some .center => settings ++ [⟨some .center⟩]
      | some .right => settings ++ [⟨some .right⟩]
      | _ => if settings.length > 0 then settings ++ [⟨none⟩] else settings)
    []

/-- `parseTableRowsToBlocks` (lines 477-511). -/
def parseTableRowsToBlocks (header : List TCellTok) (rows : List (List TCellTok))
    (align : List (Option MAlign)) : List (List TCell) × List ColumnSetting :=
  let headerRow := header.map parseTableCellToBlock
  let tableRows := headerRow :: rows.map (fun row => row.map parseTableCellToBlock)
  (tableRows, buildColumnSettings align)

/-- `parseTable` (lines 513-524). -/
def parseTableF (header : List TCellTok) (rows : List (List TCellTok))
    (align : List (Option MAlign)) : Block :=
  let res := parseTableRowsToBlocks header rows align
  tableB res.1 (if res.2.length > 0 then some res.2 else none)

/-! ### The embedded-markup extractor (`parseHTML`, lines 617-873).

The XML sub-parser (`fast-xml-parser` with `SECURE_XML_CONFIG`) is an
external collaborator (spec §6); its output is modelled as a dynamic value
`XmlValue` (string leaves, arrays, and keyed objects — with this parser's
configuration attribute values arrive as `@_`-prefixed string fields), and
an `html` token carries the outcome of `parser.parse(element.raw)` directly,
`Except.error` standing for a thrown parse failure. -/

/-- A dynamic value produced by the XML sub-parser. -/
inductive XmlValue where
  | str (s : String)
  | arr (elems : List XmlValue)
  | obj (fields : List (String × XmlValue))

namespace XmlValue

/-- JS property access `v[key]` (`undefined` is `none`). -/
def getField : XmlValue → String → Option XmlValue
  | .obj fields, key => fields.lookup key
  | _, _ => none

/-- JS truthiness of a parsed value: the empty string is falsy, every array
or object is truthy. -/
def truthy : XmlValue → Bool
  | .str s => s ≠ ""
  | .arr _ => true
  | .obj _ => true

/-- `Array.isArray(v) ? v : [v]`. -/
def toArray : XmlValue → List XmlValue
  | .arr l => l
  | v => [v]

/-- A field read as a string attribute (with the secure configuration,
attributes are parsed as strings). -/
def getStr (v : XmlValue) (key : String) : Option String :=
  match v.getField key with
  | some (.str s) => some s
  | _ => none

end XmlValue

/-- Structural equality on dynamic values, standing in for the reference
comparison `tableElement.thead.tr === tr` of line 739 (in the source two
structurally equal parse nodes are distinct references only when the parser
produced them at different places; the guard is only reachable when
`tbody` is absent and `thead.tr` is the very value being iterated). -/
def xmlBEq : XmlValue → XmlValue → Bool
  | .str a, .str b => a == b
  | .arr a, .arr b => xmlBEqList a b
  | .obj a, .obj b => xmlBEqFields a b
  | _, _ => false
where
  xmlBEqList : List XmlValue → List XmlValue → Bool
  | [], [] => true
  | a :: as_, b :: bs => xmlBEq a b && xmlBEqList as_ bs
  | _, _ => false
  xmlBEqFields : List (String × XmlValue) → List (String × XmlValue) → Bool
  | [], [] => true
  | (ka, va) :: as_, (kb, vb) :: bs => ka == kb && xmlBEq va vb && xmlBEqFields as_ bs
  | _, _ => false

/-- `extractTextFromHtmlElement` (lines 627-664): the visible text of a
parsed tag subtree.  A non-string `#text` value cannot arise with this
parser configuration and is read as the empty string. -/
def extractText : XmlValue → String
  | .str s => s
  | .arr l => joinStr (extractTextList l)
  | .obj fields =>
    match fields.lookup "#text" with
    | some v => if v.truthy then (match v with | .str s => s | _ => "") else extractTextLoop fields
    | none => extractTextLoop fields
where
  /-- `element.map(e => extractTextFromHtmlElement(e))`. -/
  extractTextList : List XmlValue → List String
  | [] => []
  | v :: vs => extractText v :: extractTextList vs
  /-- The `for (const key of keys)` loop: skip attribute keys; return a
  string value directly, a truthy nested `#text`, or the first non-empty
  recursive extraction. -/
  extractTextLoop : List (String × XmlValue) → String
  | [] => ""
  | (key, value) :: rest =>
    if key = "@_align" || key.startsWith "@_" then extractTextLoop rest
    else
      match value with
      | .str s => s
      | v =>
        match (match v with
               | .obj f2 => f2.lookup "#text"
               | _ => none) with
        | some v2 =>
          if v2.truthy then (match v2 with | .str s => s | _ => "")
          else
            let extracted := extractText v
            if extracted ≠ "" then extracted else extractTextLoop rest
        | none =>
          let extracted := extractText v
          if extracted ≠ "" then extracted else extractTextLoop rest

/-- Sparse-array read `columnSettings[index]` (a hole or an out-of-range
index is `undefined`). -/
def sparseGet (cs : List (Option ColumnSetting)) (i : Nat) : Option ColumnSetting :=
  (cs.getD i none)

/-- Sparse-array write `columnSettings[index] = v`, padding with holes. -/
def sparseSet (cs : List (Option ColumnSetting)) (i : Nat) (v : ColumnSetting) :
    List (Option ColumnSetting) :=
  let padded := if cs.length < i + 1 then cs ++ List.replicate (i + 1 - cs.length) none else cs
  padded.set i (some v)

/-- The alignment-attribute update shared by the `col`/`th`/`td` loops of
`parseHtmlTable`: read `@_align`, lower-case it, and record a setting when
it is `center` or `right`.  `guarded` is true for the `th`/`td` variants,
which assign only when `!columnSettings[index]`. -/
def alignUpdate (guarded : Bool) (cs : List (Option ColumnSetting)) (i : Nat)
    (cell : XmlValue) : List (Option ColumnSetting) :=
  match cell.getStr "@_align" with
  | some al =>
    if al = "" then cs
    else if guarded && (sparseGet cs i).isSome then cs
    else
      let a := String.mk (al.data.map lowerChar)
      if a = "center" then sparseSet cs i ⟨some .center⟩
      else if a = "right" then sparseSet cs i ⟨some .right⟩
      else cs
  | none => cs

/-- The colgroup loop of `parseHtmlTable` (lines 688-701). -/
def colgroupSettings (tableElement : XmlValue) : List (Option ColumnSetting) :=
  match tableElement.getField "colgroup" with
  | some cg =>
    if cg.truthy then
      match cg.getField "col" with
      | some colv =>
        if colv.truthy then
          (colv.toArray.enum.foldl (fun cs p => alignUpdate false cs p.1 p.2) [])
        else []
      | none => []
    else []
  | none => []

/-- The header-row processing of `parseHtmlTable` (lines 703-728): the new
rows (zero or one) and the updated settings. -/
def htmlHeaderRow (tableElement : XmlValue) (cs : List (Option ColumnSetting)) :
    List (List TCell) × List (Option ColumnSetting) :=
  match tableElement.getField "thead" with
  | some th =>
    if th.truthy then
      match th.getField "tr" with
      | some trv =>
        if trv.truthy then
          let headerRow : Option XmlValue :=
            match trv with
            | .arr l => l.head?
            | v => some v
          match headerRow with
          | some hr =>
            if hr.truthy then
              match hr.getField "th" with
              | some thv =>
                if thv.truthy then
                  let headers := thv.toArray
                  let cs2 := headers.enum.foldl
                    (fun acc p => alignUpdate true acc p.1 p.2) cs
                  ([headers.map (fun h => TCell.raw_text (extractText h))], cs2)
                else ([], cs)
              | none => ([], cs)
            else ([], cs)
          | none => ([], cs)
        else ([], cs)
      | none => ([], cs)
    else ([], cs)
  | none => ([], cs)

/-- One body row of `parseHtmlTable` (lines 737-767): skip the row when it
is the already-consumed header row, read `td` falling back to `th`, and keep
the row only when it has cells. -/
def htmlBodyRow (tableElement : XmlValue) (tr : XmlValue)
    (cs : List (Option ColumnSetting)) : List (List TCell) × List (Option ColumnSetting) :=
  let isHeader :=
    match tableElement.getField "thead" with
    | some th =>
      th.truthy &&
        (match th.getField "tr" with
         | some trv => xmlBEq trv tr
         | none => false)
    | none => false
  if isHeader then ([], cs)
  else
    let cellElements : Option XmlValue :=
      match tr.getField "td" with
      | some td => if td.truthy then some td else tr.getField "th"
      | none => tr.getField "th"
    match cellElements with
    | some cellv =>
      if cellv.truthy then
        let cellArray := cellv.toArray
        let cs2 := cellArray.enum.foldl (fun acc p => alignUpdate true acc p.1 p.2) cs
        let cells := cellArray.map (fun c => TCell.raw_text (extractText c))
        (if cells.length > 0 then [cells] else [], cs2)
      else ([], cs)
    | none => ([], cs)

/-- The final clean-up of `parseHtmlTable` (lines 772-776): JS `filter` and
`some` skip the holes of the sparse array, so an entry is kept when it has
an alignment or some later present entry has one. -/
def cleanSettings : List (Option ColumnSetting) → List ColumnSetting
  | [] => []
  | none :: rest => cleanSettings rest
  | some s :: rest =>
    if s.align.isSome || rest.any (fun o => (o.map (fun c => c.align.isSome)).getD false) then
      s :: cleanSettings rest
    else cleanSettings rest

/-- `parseHtmlTable` (lines 682-793).  Nothing in the embedded body can
throw (the modelled `table` builder truncates instead of failing), so the
surrounding `try`/`catch` reduces to the `rows.length > 0` check. -/
def parseHtmlTable (tableElement : XmlValue) : Option Block :=
  let cs0 := colgroupSettings tableElement
  let hr := htmlHeaderRow tableElement cs0
  let bodyElement :=
    match tableElement.getField "tbody" with
    | some tb => if tb.truthy then tb else tableElement
    | none => tableElement
  let body :=
    match bodyElement.getField "tr" with
    | some trv =>
      if trv.truthy then
        trv.toArray.foldl
          (fun (acc : List (List TCell) × List (Option ColumnSetting)) tr =>
            let r := htmlBodyRow tableElement tr acc.2
            (acc.1 ++ r.1, r.2))
          (hr.1, hr.2)
      else hr
    | none => hr
  if body.1.length > 0 then
    let cleaned := cleanSettings body.2
    some (tableB body.1 (if cleaned.length > 0 then some cleaned else none))
  else none

/-- The per-image mapping of `parseHTML` (lines 812-827): an entry without a
valid `@_src` is filtered out; the rest become Image blocks.  (In the source
a throwing `image()` call would escape to the island-level catch, but the
builder cannot throw once `validateUrl` has accepted the URL, so mapping a
builder failure to `none` here is equivalent.) -/
def imgEntry (img : XmlValue) : Option Block :=
  match img.getStr "@_src" with
  | some url =>
    if validateUrl url then
      match imageB url (jsOr ((img.getStr "@_alt").getD "") url) none with
      | .ok b => some b
      | .error _ => none
    else none
  | none => none

/-- `blocks.push(...imageBlocks)` for an `img` field. -/
def imgBlocksOf (tags : List XmlValue) : List Block :=
  tags.filterMap imgEntry

/-- The per-video mapping of `parseHTML` (lines 833-859): default the title
to `"Video"` and the alt text to the title, require a valid video URL and,
when present, a valid poster URL, default the thumbnail to the video URL,
and drop the entry when the builder fails. -/
def videoEntry (vid : XmlValue) : Option Block :=
  let videoUrl := (vid.getStr "@_src").getD ""
  let posterUrl := (vid.getStr "@_poster").getD ""
  let title := jsOr ((vid.getStr "@_title").getD "") "Video"
  let altText := jsOr ((vid.getStr "@_alt").getD "") title
  if videoUrl = "" || !validateUrl videoUrl then none
  else if posterUrl ≠ "" && !validateUrl posterUrl then none
  else
    match videoB videoUrl (jsOr posterUrl videoUrl) title altText with
    | .ok b => some b
    | .error _ => none

/-- `blocks.push(...videoBlocks)` for a `video` field. -/
def videoBlocksOf (tags : List XmlValue) : List Block :=
  tags.filterMap videoEntry

/-- The body of `parseHTML`'s `try` block over an already-parsed island. -/
def parseHTMLcore (res : XmlValue) : List Block :=
  let tableBlocks :=
    match res.getField "table" with
    | some t =>
      if t.truthy then
        match parseHtmlTable t with
        | some tb => [tb]
        | none => []
      else []
    | none => []
  let imageBlocks :=
    match res.getField "img" with
    | some iv => if iv.truthy then imgBlocksOf iv.toArray else []
    | none => []
  let videoBlocks :=
    match res.getField "video" with
    | some vv => if vv.truthy then videoBlocksOf vv.toArray else []
    | none => []
  tableBlocks ++ imageBlocks ++ videoBlocks

/-- `parseHTML` (lines 795-873): a thrown sub-parse failure is caught and
yields the empty block list for the island. -/
def parseHTMLF : Except String XmlValue → List Block
  | .error _ => []
  | .ok res => parseHTMLcore res

/-! ### Block-level tokens and their builders -/

mutual

/-- A `marked` block-level token.  `mtext` is a block-level `text` token
(with its optionally inline-parsed children); `html` carries the outcome of
the XML sub-parse of its raw text (see above); `space` stands for the token
kinds `parseToken` routes to the empty list. -/
inductive MToken where
  | heading (tokens : List PhrasingToken)
  | paragraph (tokens : List PhrasingToken)
  | mtext (text : String) (tokens : Option (List PhrasingToken))
  | code (text : String)
  | blockquote (tokens : List MToken)
  | list (ordered : Bool) (items : List LItem)
  | table (header : List TCellTok) (rows : List (List TCellTok)) (align : List (Option MAlign))
  | hr
  | html (res : Except String XmlValue)
  | space

/-- A `marked` list item: its task/checked flags and child tokens. -/
inductive LItem where
  | mk (task : Bool) (checked : Bool) (tokens : List MToken)

end

/-- `parseHeading` (lines 257-263). -/
def parseHeadingF (tokens : List PhrasingToken) : Block :=
  headerB (joinStr (parsePlainText.parsePlainTextList tokens))

/-- List options: the checkbox glyph function (source field name
`checkboxPrefix`, renamed here for the verification environment). -/
structure ListOptions where
  checkboxGlyph : Option (Bool → String) := none

/-- `ParsingOptions`: the optional list configuration. -/
structure ParsingOptions where
  lists : Option ListOptions := none

/-- The default checkbox glyph of `parseList` (lines 277-279; source name
`defaultCheckboxPrefix`). -/
def defaultCheckboxGlyph (checked : Bool) : String :=
  if checked then "✅ " else "☐ "

/-- `parseList` (lines 269-333): checkbox items get a glyph prefix;
`text`/`paragraph` children with inline tokens convert through
`tokensToRichTextElements`; `code` children become code-styled text wrapped
in newlines; everything else (including nested lists) is skipped. -/
def parseListF (ordered : Bool) (items : List LItem) (options : ListOptions) : Block :=
  let glyph := options.checkboxGlyph.getD defaultCheckboxGlyph
  let itemsOut := items.map fun it =>
    match it with
    | .mk task checked toks =>
      (if task then [RTElement.text (glyph checked) none] else []) ++
        toks.flatMap fun tk =>
          match tk with
          | .mtext _ (some ts) => if ts.isEmpty then [] else tokensToRichTextElements ts
          | .mtext _ none => []
          | .paragraph ts => if ts.isEmpty then [] else tokensToRichTextElements ts
          | .code t => [RTElement.text ("\n" ++ t ++ "\n") (some .code)]
          | _ => []
  richTextListB itemsOut (if ordered then .ordered else .bullet) 0

/-! ### The quote builder (`parseBlockquote`, lines 526-611) -/

/-- The simple-quote classification (lines 530-532): every child is a
paragraph or a bare text token. -/
def onlyParas (tokens : List MToken) : Bool :=
  tokens.all fun t =>
    match t with
    | .paragraph _ => true
    | .mtext _ _ => true
    | _ => false

/-- The trial parse of lines 536-541: parse each paragraph child normally
(non-paragraph children contribute nothing). -/
def blockquoteTrialS : List MToken → Nat → Except MackError (List Block) × Nat
  | [], d => (.ok [], d)
  | .paragraph ts :: rest, d =>
    match parseParagraphS ts d with
    | (.ok bs, d2) =>
      match blockquoteTrialS rest d2 with
      | (.ok bs2, d3) => (.ok (bs ++ bs2), d3)
      | (.error e, d3) => (.error e, d3)
    | (.error e, d2) => (.error e, d2)
  | _ :: rest, d => blockquoteTrialS rest d

/-- The simple-quote element collection of lines 548-575.  A non-empty
paragraph contributes its rich elements plus a newline separator when it is
not the last child (the source asks `tokens.indexOf(token) < length - 1`
with reference identity, i.e. the position of the current iterate); a bare
text token contributes its rich elements when it has inline children and
its raw text otherwise. -/
def buildQuoteElements : List MToken → List RTElement
  | [] => []
  | .paragraph ts :: rest =>
    (if ts.isEmpty then []
     else tokensToRichTextElements ts ++ (if rest.isEmpty then [] else [.text "\n" none]))
      ++ buildQuoteElements rest
  | .mtext t tokens :: rest =>
    (match tokens with
     | some ts => if ts.isEmpty then [.text t none] else tokensToRichTextElements ts
     | none => [.text t none])
      ++ buildQuoteElements rest
  | _ :: rest => buildQuoteElements rest

/-- The post-processing of lines 605-610: prefix `"> "` and requote internal
newlines on Section blocks with non-empty text; all other blocks pass
through unchanged. -/
def quoteFormat : Block → Block
  | .section t => if t = "" then .section t else .section ("> " ++ replaceNl t)
  | b => b

mutual

/-- The per-child dispatch of the complex blockquote path (lines 585-602). -/
def bqChildBlocksS : MToken → Nat → Except MackError (List Block) × Nat
  | .paragraph ps, d => parseParagraphS ps d
  | .list ordered items, d => (.ok [parseListF ordered items {}], d)
  | .code t, d => (.ok [richTextCodeB t], d)
  | .blockquote bts, d => parseBlockquoteS bts d
  | .heading hts, d => (.ok [parseHeadingF hts], d)
  | .html res, d => (.ok (parseHTMLF res), d)
  | _, d => (.ok [], d)
termination_by t _ => (sizeOf t, 0)
decreasing_by all_goals (simp_wf; omega)

/-- The `flatMap` of the complex blockquote path over all children. -/
def bqChildrenS : List MToken → Nat → Except MackError (List Block) × Nat
  | [], d => (.ok [], d)
  | t :: ts, d =>
    match bqChildBlocksS t d with
    | (.ok bs, d2) =>
      match bqChildrenS ts d2 with
      | (.ok bs2, d3) => (.ok (bs ++ bs2), d3)
      | (.error e, d3) => (.error e, d3)
    | (.error e, d2) => (.error e, d2)
termination_by l _ => (sizeOf l, 1)
decreasing_by all_goals (simp_wf; omega)

/-- `parseBlockquote` (lines 526-611), over the blockquote's child list. -/
def parseBlockquoteS (tokens : List MToken) (d : Nat) :
    Except MackError (List Block) × Nat :=
  if onlyParas tokens then
    match blockquoteTrialS tokens d with
    | (.error e, d2) => (.error e, d2)
    | (.ok testBlocks, d2) =>
      if testBlocks.any isFileBlock then
        match bqChildrenS tokens d2 with
        | (.ok bs, d3) => (.ok (bs.map quoteFormat), d3)
        | (.error e, d3) => (.error e, d3)
      else
        let q := buildQuoteElements tokens
        if q.length > 0 then (.ok [richTextQuoteB q], d2) else (.ok [], d2)
  else
    match bqChildrenS tokens d with
    | (.ok bs, d2) => (.ok (bs.map quoteFormat), d2)
    | (.error e, d2) => (.error e, d2)
termination_by (sizeOf tokens, 2)
decreasing_by all_goals omega

end

/-! ### The token router (`parseToken`/`parseBlocks`, lines 875-914) -/

/-- `parseToken` (lines 875-907). -/
def parseTokenS (token : MToken) (options : ParsingOptions) (d : Nat) :
    Except MackError (List Block) × Nat :=
  match token with
  | .heading ts => (.ok [parseHeadingF ts], d)
  | .paragraph ts => parseParagraphS ts d
  | .code t => (.ok [richTextCodeB t], d)
  | .blockquote ts => parseBlockquoteS ts d
  | .list ordered items => (.ok [parseListF ordered items (options.lists.getD {})], d)
  | .table h r a => (.ok [parseTableF h r a], d)
  | .hr => (.ok [Block.divider], d)
  | .html res => (.ok (parseHTMLF res), d)
  | .mtext _ _ => (.ok [], d)
  | .space => (.ok [], d)

/-- `parseBlocks` (lines 909-914): the flattened concatenation of
`parseToken` over the document's top-level tokens. -/
def parseBlocksS : List MToken → ParsingOptions → Nat → Except MackError (List Block) × Nat
  | [], _, d => (.ok [], d)
  | t :: ts, options, d =>
    match parseTokenS t options d with
    | (.ok bs, d2) =>
      match parseBlocksS ts options d2 with
      | (.ok bs2, d3) => (.ok (bs ++ bs2), d3)
      | (.error e, d3) => (.error e, d3)
    | (.error e, d2) => (.error e, d2)

/-! ### Specification-side measures and instruments used by the claims -/

mutual

/-- Nesting depth of an inline token: the number of `parseMrkdwn` frames its
rendering opens (containers recurse, leaves count one frame). -/
def nestDepth : PhrasingToken → Nat
  | .link _ _ _ tokens => 1 + nestDepthList tokens
  | .em _ tokens => 1 + nestDepthList tokens
  | .strong _ tokens => 1 + nestDepthList tokens
  | .del _ tokens => 1 + nestDepthList tokens
  | _ => 1

/-- Largest nesting depth among a token list (0 for the empty list). -/
def nestDepthList : List PhrasingToken → Nat
  | [] => 0
  | t :: ts => max (nestDepth t) (nestDepthList ts)

end

/-- An emphasis chain of nesting depth `n + 1`, used to exercise the
recursion ceiling at concrete depths. -/
def nestEm : Nat → PhrasingToken
  | 0 => .txt "x" "x"
  | n + 1 => .em "x" [nestEm n]

/-- The inline token kinds named by claim C1: plain text, emphasis, strong. -/
def isMergeableInline : PhrasingToken → Bool
  | .txt _ _ => true
  | .em _ _ => true
  | .strong _ _ => true
  | _ => false

/-- The recursion-depth counter left behind by a sequence of earlier
`parseBlocks` invocations (successful or failed), starting from `s`. -/
def runPrior : List (List MToken × ParsingOptions) → Nat → Nat
  | [], s => s
  | (t, o) :: rest, s => runPrior rest ((parseBlocksS t o s).2)

/-! ### Counter restoration: every traversal function returns the
recursion-depth counter exactly as it received it (the `finally` of
`parseMrkdwn` runs on success and on thrown failure alike). -/


mutual

theorem parseMrkdwnS_state (e : PhrasingToken) (d : Nat) : (parseMrkdwnS e d).2 = d := by
  cases e with
  | link href title text tokens =>
    have h := parseMrkdwnListS_state tokens (d + 1)
    simp only [parseMrkdwnS]
    repeat' split
    all_goals (simp_all; try omega)
  | em text tokens =>
    have h := parseMrkdwnListS_state tokens (d + 1)
    simp only [parseMrkdwnS]
    repeat' split
    all_goals (simp_all; try omega)
  | strong text tokens =>
    have h := parseMrkdwnListS_state tokens (d + 1)
    simp only [parseMrkdwnS]
    repeat' split
    all_goals (simp_all; try omega)
  | del text tokens =>
    have h := parseMrkdwnListS_state tokens (d + 1)
    simp only [parseMrkdwnS]
    repeat' split
    all_goals (simp_all; try omega)
  | br raw =>
    simp only [parseMrkdwnS]; repeat' split
    all_goals (simp_all; try omega)
  | image href text title =>
    simp only [parseMrkdwnS]; repeat' split
    all_goals (simp_all; try omega)
  | codespan t raw =>
    simp only [parseMrkdwnS]; repeat' split
    all_goals (simp_all; try omega)
  | txt t raw =>
    simp only [parseMrkdwnS]; repeat' split
    all_goals (simp_all; try omega)
  | html t raw =>
    simp only [parseMrkdwnS]; repeat' split
    all_goals (simp_all; try omega)

theorem parseMrkdwnListS_state (ts : List PhrasingToken) (d : Nat) :
    (parseMrkdwnListS ts d).2 = d := by
  cases ts with
  | nil => simp [parseMrkdwnListS]
  | cons t rest =>
    have h1 := parseMrkdwnS_state t d
    simp only [parseMrkdwnListS]
    repeat' split
    all_goals simp_all
    all_goals (rename_i heq1 heq2
               have h2 := parseMrkdwnListS_state rest ((parseMrkdwnS t d).2)
               simp_all)

end



theorem parsePhrasingContentS_state (e : PhrasingToken) (acc : List Block) (d : Nat) :
    (parsePhrasingContentS e acc d).2 = d := by
  have h := parseMrkdwnS_state e d
  cases e <;>
    (simp only [parsePhrasingContentS]; repeat' split) <;>
    simp_all

theorem parseParagraphAuxS_state (ts : List PhrasingToken) (acc : List Block) (d : Nat) :
    (parseParagraphAuxS ts acc d).2 = d := by
  induction ts generalizing acc d with
  | nil => simp [parseParagraphAuxS]
  | cons t rest ih =>
    have h1 := parsePhrasingContentS_state t acc d
    simp only [parseParagraphAuxS]
    repeat' split
    all_goals simp_all

theorem parseParagraphS_state (ts : List PhrasingToken) (d : Nat) :
    (parseParagraphS ts d).2 = d := parseParagraphAuxS_state ts [] d

theorem blockquoteTrialS_state (ts : List MToken) (d : Nat) :
    (blockquoteTrialS ts d).2 = d := by
  induction ts generalizing d with
  | nil => simp [blockquoteTrialS]
  | cons t rest ih =>
    cases t <;> simp only [blockquoteTrialS] <;> try exact ih d
    rename_i pts
    rcases hp : parseParagraphS pts d with ⟨rp, dp⟩
    have hdp : dp = d := by have h := parseParagraphS_state pts d; rw [hp] at h; exact h
    rcases hr : blockquoteTrialS rest dp with ⟨rr, dr⟩
    have hdr : dr = dp := by have h := ih dp; rw [hr] at h; exact h
    rw [hdp] at hr hdr
    cases rp <;> cases rr <;> simp [hp, hr, hdp, hdr]

mutual

theorem bqChildBlocksS_state (t : MToken) (d : Nat) : (bqChildBlocksS t d).2 = d := by
  cases t with
  | paragraph ps => simpa [bqChildBlocksS] using parseParagraphS_state ps d
  | blockquote bts => simpa [bqChildBlocksS] using parseBlockquoteS_state bts d
  | _ => simp [bqChildBlocksS]
termination_by (sizeOf t, 0)
decreasing_by all_goals (simp_wf; omega)

theorem bqChildrenS_state (l : List MToken) (d : Nat) : (bqChildrenS l d).2 = d := by
  cases l with
  | nil => simp [bqChildrenS]
  | cons t rest =>
    rcases hp : bqChildBlocksS t d with ⟨rp, dp⟩
    have hdp : dp = d := by have h := bqChildBlocksS_state t d; rw [hp] at h; exact h
    rcases hr : bqChildrenS rest dp with ⟨rr, dr⟩
    have hdr : dr = dp := by have h := bqChildrenS_state rest dp; rw [hr] at h; exact h
    rw [hdp] at hr hdr
    cases rp <;> cases rr <;> simp [bqChildrenS, hp, hr, hdp, hdr]
termination_by (sizeOf l, 1)
decreasing_by all_goals (simp_wf; omega)

theorem parseBlockquoteS_state (l : List MToken) (d : Nat) : (parseBlockquoteS l d).2 = d := by
  have ht := blockquoteTrialS_state l d
  have hc := bqChildrenS_state l d
  have hc2 := bqChildrenS_state l ((blockquoteTrialS l d).2)
  simp only [parseBlockquoteS]
  repeat' split
  all_goals simp_all
termination_by (sizeOf l, 2)
decreasing_by all_goals omega

end

theorem parseTokenS_state (t : MToken) (o : ParsingOptions) (d : Nat) :
    (parseTokenS t o d).2 = d := by
  cases t with
  | paragraph ts => simpa [parseTokenS] using parseParagraphS_state ts d
  | blockquote ts => simpa [parseTokenS] using parseBlockquoteS_state ts d
  | _ => simp [parseTokenS]

theorem parseBlocksS_state (ts : List MToken) (o : ParsingOptions) (d : Nat) :
    (parseBlocksS ts o d).2 = d := by
  induction ts generalizing d with
  | nil => simp [parseBlocksS]
  | cons t rest ih =>
    rcases hp : parseTokenS t o d with ⟨rp, dp⟩
    have hdp : dp = d := by have h := parseTokenS_state t o d; rw [hp] at h; exact h
    rcases hr : parseBlocksS rest o dp with ⟨rr, dr⟩
    have hdr : dr = dp := by have h := ih dp; rw [hr] at h; exact h
    rw [hdp] at hr hdr
    cases rp <;> cases rr <;> simp [parseBlocksS, hp, hr, hdp, hdr]




/-! ### Helper lemmas for the claims -/

/-- `extractFileName` never returns the empty string, so the modelled `file`
builder cannot fail on a name it produces. -/
theorem extractFileName_ne_empty (href : String) : extractFileName href ≠ "" := by
  simp only [extractFileName]
  split
  · simp
  · rename_i h
    intro hc
    have hd : (String.mk (lastSeg [] (charsBefore '#' (charsBefore '?' href.data)))).data = [] := by
      rw [hc]
    simp only [String.data] at hd
    rw [List.isEmpty_iff] at h
    exact h hd

/-- Frame property of `addMrkdwn`: either blocks are appended at the end, or
the accumulator ends in a Section whose text is extended. -/
theorem addMrkdwn_frame (content : String) (acc : List Block) :
    (∃ tail, addMrkdwn content acc = acc ++ tail) ∨
    (∃ pre s, acc = pre ++ [Block.section s] ∧
       addMrkdwn content acc = pre ++ [Block.section (s ++ content)]) := by
  unfold addMrkdwn
  rcases hl : acc.getLast? with _ | b
  · left
    exact ⟨[sectionB content], rfl⟩
  · have hacc : acc.dropLast ++ [b] = acc :=
      List.dropLast_append_getLast? b (by simp [hl])
    cases b
    case _ s =>
      right
      exact ⟨acc.dropLast, s, hacc.symm, rfl⟩
    all_goals left; exact ⟨[sectionB content], rfl⟩




theorem runPrior_eq (l : List (List MToken × ParsingOptions)) (s : Nat) :
    runPrior l s = s := by
  induction l generalizing s with
  | nil => rfl
  | cons p rest ih =>
    obtain ⟨t, o⟩ := p
    simp only [runPrior, parseBlocksS_state]
    exact ih s

/-- The frame shape produced by `addMrkdwn` for an equation hypothesis. -/
theorem addMrkdwn_frame_eq (s : String) (acc acc2 : List Block)
    (h : addMrkdwn s acc = acc2) :
    (∃ tail, acc2 = acc ++ tail) ∨
    (∃ pre s0 content, acc = pre ++ [Block.section s0] ∧
       acc2 = pre ++ [Block.section (s0 ++ content)]) := by
  subst h
  rcases addMrkdwn_frame s acc with ⟨tail, ht⟩ | ⟨pre, s0, h1, h2⟩
  · exact Or.inl ⟨tail, ht⟩
  · exact Or.inr ⟨pre, s0, s, h1, h2⟩

/-- Frame property of one inline accumulation step: on success, the new
accumulator extends the old one, except possibly for text appended to a
trailing Section. -/
theorem parsePhrasingContentS_frame (e : PhrasingToken) (acc : List Block)
    (d : Nat) (acc2 : List Block) (d2 : Nat)
    (h : parsePhrasingContentS e acc d = (Except.ok acc2, d2)) :
    (∃ tail, acc2 = acc ++ tail) ∨
    (∃ pre s content, acc = pre ++ [Block.section s] ∧
       acc2 = pre ++ [Block.section (s ++ content)]) := by
  cases e <;> simp only [parsePhrasingContentS] at h <;> repeat' split at h
  all_goals
    simp only [Prod.mk.injEq] at h
  all_goals
    obtain ⟨h1, h2⟩ := h
  all_goals
    first
    | exact (Except.noConfusion h1)
    | (rw [Except.ok.injEq] at h1
       first
       | exact Or.inl ⟨_, h1.symm⟩
       | exact addMrkdwn_frame_eq _ _ _ h1
       | exact Or.inl ⟨[], by rw [← h1]; simp⟩)




theorem nestDepth_pos (e : PhrasingToken) : 1 ≤ nestDepth e := by
  cases e <;> simp [nestDepth]

theorem nestDepth_le_list {t : PhrasingToken} {ts : List PhrasingToken} (h : t ∈ ts) :
    nestDepth t ≤ nestDepthList ts := by
  induction ts with
  | nil => cases h
  | cons t2 rest ih =>
    rcases List.mem_cons.mp h with h1 | h2
    · subst h1; simp [nestDepthList]
    · simp [nestDepthList]
      exact Or.inr (ih h2)

theorem exists_of_lt_nestDepthList {ts : List PhrasingToken} {m d : Nat}
    (h : m < d + nestDepthList ts) (hd : d ≤ m) :
    ∃ t ∈ ts, m < d + nestDepth t := by
  induction ts with
  | nil => simp [nestDepthList] at h; omega
  | cons t rest ih =>
    simp only [nestDepthList] at h
    rcases Nat.le_total (nestDepth t) (nestDepthList rest) with hle | hle
    · rw [Nat.max_eq_right hle] at h
      obtain ⟨t2, ht2, hlt⟩ := ih h
      exact ⟨t2, List.mem_cons_of_mem t ht2, hlt⟩
    · rw [Nat.max_eq_left hle] at h
      exact ⟨t, List.mem_cons_self t rest, h⟩

mutual

theorem parseMrkdwn_err (e : PhrasingToken) (d : Nat) :
    (MAX_RECURSION_DEPTH < d + nestDepth e →
       (parseMrkdwnS e d).1 = Except.error MackError.recursionLimit) ∧
    (d + nestDepth e ≤ MAX_RECURSION_DEPTH → ∃ s, (parseMrkdwnS e d).1 = Except.ok s) := by
  cases e with
  | link href title text tokens =>
    constructor
    · intro hgt
      simp only [nestDepth] at hgt
      by_cases hd1 : MAX_RECURSION_DEPTH < d + 1
      · simp [parseMrkdwnS, hd1]
      · push_neg at hd1
        obtain ⟨t, ht, hlt⟩ :=
          @exists_of_lt_nestDepthList tokens MAX_RECURSION_DEPTH (d + 1)
            (by omega) (by omega)
        have hl := (parseMrkdwnList_err tokens (d + 1)).1 ⟨t, ht, hlt⟩
        rcases hle : parseMrkdwnListS tokens (d + 1) with ⟨r, d2⟩
        rw [hle] at hl
        simp only at hl
        subst hl
        have hd1b : ¬ MAX_RECURSION_DEPTH < d + 1 := by omega
        simp [parseMrkdwnS, hle, hd1b]
    · intro hle
      simp only [nestDepth] at hle
      obtain ⟨s, hs⟩ := (parseMrkdwnList_err tokens (d + 1)).2 (fun t ht => by
        have := nestDepth_le_list ht; omega)
      rcases hle2 : parseMrkdwnListS tokens (d + 1) with ⟨r, d2⟩
      rw [hle2] at hs
      simp only at hs
      subst hs
      have hd1 : ¬ MAX_RECURSION_DEPTH < d + 1 := by omega
      by_cases hv : (¬href = "" ∧ validateUrl href = true)
      · exact ⟨"<" ++ href ++ "|" ++ s ++ "> ", by simp [parseMrkdwnS, hle2, hd1, hv]⟩
      · exact ⟨s, by simp [parseMrkdwnS, hle2, hd1, hv]⟩
  | em text tokens =>
    constructor
    · intro hgt
      simp only [nestDepth] at hgt
      by_cases hd1 : MAX_RECURSION_DEPTH < d + 1
      · simp [parseMrkdwnS, hd1]
      · push_neg at hd1
        obtain ⟨t, ht, hlt⟩ :=
          @exists_of_lt_nestDepthList tokens MAX_RECURSION_DEPTH (d + 1)
            (by omega) (by omega)
        have hl := (parseMrkdwnList_err tokens (d + 1)).1 ⟨t, ht, hlt⟩
        rcases hle : parseMrkdwnListS tokens (d + 1) with ⟨r, d2⟩
        rw [hle] at hl
        simp only at hl
        subst hl
        have hd1b : ¬ MAX_RECURSION_DEPTH < d + 1 := by omega
        simp [parseMrkdwnS, hle, hd1b]
    · intro hle
      simp only [nestDepth] at hle
      obtain ⟨s, hs⟩ := (parseMrkdwnList_err tokens (d + 1)).2 (fun t ht => by
        have := nestDepth_le_list ht; omega)
      rcases hle2 : parseMrkdwnListS tokens (d + 1) with ⟨r, d2⟩
      rw [hle2] at hs
      simp only at hs
      subst hs
      have hd1 : ¬ MAX_RECURSION_DEPTH < d + 1 := by omega
      exact ⟨"_" ++ s ++ "_", by simp [parseMrkdwnS, hle2, hd1]⟩
  | strong text tokens =>
    constructor
    · intro hgt
      simp only [nestDepth] at hgt
      by_cases hd1 : MAX_RECURSION_DEPTH < d + 1
      · simp [parseMrkdwnS, hd1]
      · push_neg at hd1
        obtain ⟨t, ht, hlt⟩ :=
          @exists_of_lt_nestDepthList tokens MAX_RECURSION_DEPTH (d + 1)
            (by omega) (by omega)
        have hl := (parseMrkdwnList_err tokens (d + 1)).1 ⟨t, ht, hlt⟩
        rcases hle : parseMrkdwnListS tokens (d + 1) with ⟨r, d2⟩
        rw [hle] at hl
        simp only at hl
        subst hl
        have hd1b : ¬ MAX_RECURSION_DEPTH < d + 1 := by omega
        simp [parseMrkdwnS, hle, hd1b]
    · intro hle
      simp only [nestDepth] at hle
      obtain ⟨s, hs⟩ := (parseMrkdwnList_err tokens (d + 1)).2 (fun t ht => by
        have := nestDepth_le_list ht; omega)
      rcases hle2 : parseMrkdwnListS tokens (d + 1) with ⟨r, d2⟩
      rw [hle2] at hs
      simp only at hs
      subst hs
      have hd1 : ¬ MAX_RECURSION_DEPTH < d + 1 := by omega
      exact ⟨"*" ++ s ++ "*", by simp [parseMrkdwnS, hle2, hd1]⟩
  | del text tokens =>
    constructor
    · intro hgt
      simp only [nestDepth] at hgt
      by_cases hd1 : MAX_RECURSION_DEPTH < d + 1
      · simp [parseMrkdwnS, hd1]
      · push_neg at hd1
        obtain ⟨t, ht, hlt⟩ :=
          @exists_of_lt_nestDepthList tokens MAX_RECURSION_DEPTH (d + 1)
            (by omega) (by omega)
        have hl := (parseMrkdwnList_err tokens (d + 1)).1 ⟨t, ht, hlt⟩
        rcases hle : parseMrkdwnListS tokens (d + 1) with ⟨r, d2⟩
        rw [hle] at hl
        simp only at hl
        subst hl
        have hd1b : ¬ MAX_RECURSION_DEPTH < d + 1 := by omega
        simp [parseMrkdwnS, hle, hd1b]
    · intro hle
      simp only [nestDepth] at hle
      obtain ⟨s, hs⟩ := (parseMrkdwnList_err tokens (d + 1)).2 (fun t ht => by
        have := nestDepth_le_list ht; omega)
      rcases hle2 : parseMrkdwnListS tokens (d + 1) with ⟨r, d2⟩
      rw [hle2] at hs
      simp only at hs
      subst hs
      have hd1 : ¬ MAX_RECURSION_DEPTH < d + 1 := by omega
      exact ⟨"~" ++ s ++ "~", by simp [parseMrkdwnS, hle2, hd1]⟩
  | br raw =>
    refine ⟨fun hgt => ?_, fun hle => ?_⟩
    · simp only [nestDepth] at hgt
      have hd1 : MAX_RECURSION_DEPTH < d + 1 := by omega
      simp [parseMrkdwnS, hd1]
    · simp only [nestDepth] at hle
      have hd1 : ¬ MAX_RECURSION_DEPTH < d + 1 := by omega
      exact ⟨"", by simp [parseMrkdwnS, hd1]⟩
  | image href text title =>
    refine ⟨fun hgt => ?_, fun hle => ?_⟩
    · simp only [nestDepth] at hgt
      have hd1 : MAX_RECURSION_DEPTH < d + 1 := by omega
      simp [parseMrkdwnS, hd1]
    · simp only [nestDepth] at hle
      have hd1 : ¬ MAX_RECURSION_DEPTH < d + 1 := by omega
      exact ⟨"", by simp [parseMrkdwnS, hd1]⟩
  | codespan t raw =>
    refine ⟨fun hgt => ?_, fun hle => ?_⟩
    · simp only [nestDepth] at hgt
      have hd1 : MAX_RECURSION_DEPTH < d + 1 := by omega
      simp [parseMrkdwnS, hd1]
    · simp only [nestDepth] at hle
      have hd1 : ¬ MAX_RECURSION_DEPTH < d + 1 := by omega
      exact ⟨"`" ++ t ++ "`", by simp [parseMrkdwnS, hd1]⟩
  | txt t raw =>
    refine ⟨fun hgt => ?_, fun hle => ?_⟩
    · simp only [nestDepth] at hgt
      have hd1 : MAX_RECURSION_DEPTH < d + 1 := by omega
      simp [parseMrkdwnS, hd1]
    · simp only [nestDepth] at hle
      have hd1 : ¬ MAX_RECURSION_DEPTH < d + 1 := by omega
      exact ⟨t, by simp [parseMrkdwnS, hd1]⟩
  | html t raw =>
    refine ⟨fun hgt => ?_, fun hle => ?_⟩
    · simp only [nestDepth] at hgt
      have hd1 : MAX_RECURSION_DEPTH < d + 1 := by omega
      simp [parseMrkdwnS, hd1]
    · simp only [nestDepth] at hle
      have hd1 : ¬ MAX_RECURSION_DEPTH < d + 1 := by omega
      exact ⟨"", by simp [parseMrkdwnS, hd1]⟩

theorem parseMrkdwnList_err (ts : List PhrasingToken) (d : Nat) :
    ((∃ t ∈ ts, MAX_RECURSION_DEPTH < d + nestDepth t) →
       (parseMrkdwnListS ts d).1 = Except.error MackError.recursionLimit) ∧
    ((∀ t ∈ ts, d + nestDepth t ≤ MAX_RECURSION_DEPTH) →
       ∃ s, (parseMrkdwnListS ts d).1 = Except.ok s) := by
  cases ts with
  | nil =>
    constructor
    · rintro ⟨t, ht, _⟩; cases ht
    · intro _; exact ⟨"", by simp [parseMrkdwnListS]⟩
  | cons t rest =>
    rcases h1 : parseMrkdwnS t d with ⟨r1, dd⟩
    have hdd : dd = d := by
      have h := parseMrkdwnS_state t d; rw [h1] at h; exact h
    rw [hdd] at h1
    constructor
    · rintro ⟨t2, ht2, hlt⟩
      rcases List.mem_cons.mp ht2 with he | he
      · subst he
        have herr := (parseMrkdwn_err t2 d).1 hlt
        rw [h1] at herr
        simp only at herr
        subst herr
        simp [parseMrkdwnListS, h1]
      · cases r1 with
        | error e =>
          by_cases hcase : MAX_RECURSION_DEPTH < d + nestDepth t
          · have herr := (parseMrkdwn_err t d).1 hcase
            rw [h1] at herr
            simp only [Except.error.injEq] at herr
            subst herr
            simp [parseMrkdwnListS, h1]
          · push_neg at hcase
            obtain ⟨s, hs⟩ := (parseMrkdwn_err t d).2 hcase
            rw [h1] at hs
            simp at hs
        | ok s1 =>
          have herr := (parseMrkdwnList_err rest d).1 ⟨t2, he, hlt⟩
          rcases h2 : parseMrkdwnListS rest d with ⟨r2, d3⟩
          rw [h2] at herr
          simp only at herr
          subst herr
          simp [parseMrkdwnListS, h1, h2]
    · intro hall
      obtain ⟨s1, hs1⟩ := (parseMrkdwn_err t d).2 (hall t (List.mem_cons_self t rest))
      rw [h1] at hs1
      simp only at hs1
      subst hs1
      obtain ⟨s2, hs2⟩ := (parseMrkdwnList_err rest d).2
        (fun t2 ht2 => hall t2 (List.mem_cons_of_mem t ht2))
      rcases h2 : parseMrkdwnListS rest d with ⟨r2, d3⟩
      rw [h2] at hs2
      simp only at hs2
      subst hs2
      exact ⟨s1 ++ s2, by simp [parseMrkdwnListS, h1, h2]⟩

end




/-! ### The claims -/

/-- C2: the claim states that a table with a center-aligned second column
and default first/third columns yields the column settings
`[empty, center]`, the leading default column kept as a placeholder and the
trailing one trimmed.  The code does the opposite: a default column before
the first non-default one contributes nothing (the settings list is still
empty, so the `else if` guard fails), while the default column after it
pushes a placeholder — the settings evaluate to `[center, empty]`,
contradicting both the claim and the code's own comment
"Add null to maintain column index". -/
theorem C2_column_settings_failing_input :
    (parseTableRowsToBlocks
        [⟨[.txt "a" "a"]⟩, ⟨[.txt "b" "b"]⟩, ⟨[.txt "c" "c"]⟩]
        [[⟨[.txt "1" "1"]⟩, ⟨[.txt "2" "2"]⟩, ⟨[.txt "3" "3"]⟩]]
        [none, some MAlign.center, none]).2
      = [ColumnSetting.mk (some Align.center), ColumnSetting.mk none] ∧
    [ColumnSetting.mk (some Align.center), ColumnSetting.mk none]
      ≠ [ColumnSetting.mk none, ColumnSetting.mk (some Align.center)] :=
  ⟨rfl, by decide⟩

/-- C5: the phrase renderer fails with the recursion-limit error exactly
when the token's nesting depth exceeds the ceiling; a token nested at the
ceiling renders successfully; and the shared depth counter equals its
pre-call value after every call, including failing ones. -/
theorem C5_recursion_ceiling :
    (∀ e d, (parseMrkdwnS e d).2 = d) ∧
    (∀ e, (parseMrkdwnS e 0).1 = Except.error MackError.recursionLimit ↔
       MAX_RECURSION_DEPTH < nestDepth e) ∧
    (∀ e, nestDepth e ≤ MAX_RECURSION_DEPTH →
       ∃ s, (parseMrkdwnS e 0).1 = Except.ok s) := by
  refine ⟨parseMrkdwnS_state, fun e => ⟨?_, ?_⟩,
    fun e h => (parseMrkdwn_err e 0).2 (by omega)⟩
  · intro herr
    by_contra hgt
    push_neg at hgt
    obtain ⟨s, hs⟩ := (parseMrkdwn_err e 0).2 (by omega)
    rw [herr] at hs
    cases hs
  · intro hgt
    exact (parseMrkdwn_err e 0).1 (by omega)

set_option maxRecDepth 10000 in
/-- Witness for C5: an emphasis chain of depth exactly at the ceiling
renders successfully, and one frame deeper fails with the recursion-limit
error. -/
theorem C5_recursion_ceiling_witness :
    (nestDepth (nestEm 99) ≤ MAX_RECURSION_DEPTH ∧
       ∃ s, (parseMrkdwnS (nestEm 99) 0).1 = Except.ok s) ∧
    (MAX_RECURSION_DEPTH < nestDepth (nestEm 100) ∧
       (parseMrkdwnS (nestEm 100) 0).1 = Except.error MackError.recursionLimit) :=
  ⟨⟨by decide, C5_recursion_ceiling.2.2 (nestEm 99) (by decide)⟩,
   ⟨by decide, (C5_recursion_ceiling.2.1 (nestEm 100)).mpr (by decide)⟩⟩

/-- C9: each inline accumulation step (`addMrkdwn`, and
`parsePhrasingContent` on success) leaves every element of the accumulator
except the last unchanged: it either appends new blocks at the end, or
extends the text of a trailing Section. -/
theorem C9_accumulation_frame :
    (∀ content acc,
       (∃ tail, addMrkdwn content acc = acc ++ tail) ∨
       (∃ pre s, acc = pre ++ [Block.section s] ∧
          addMrkdwn content acc = pre ++ [Block.section (s ++ content)])) ∧
    (∀ e acc d acc2 d2, parsePhrasingContentS e acc d = (Except.ok acc2, d2) →
       (∃ tail, acc2 = acc ++ tail) ∨
       (∃ pre s content, acc = pre ++ [Block.section s] ∧
          acc2 = pre ++ [Block.section (s ++ content)])) :=
  ⟨fun content acc => addMrkdwn_frame content acc,
   fun e acc d acc2 d2 h => parsePhrasingContentS_frame e acc d acc2 d2 h⟩

/-- Witness for C9: a plain-text token appended to an accumulator ending in
a Section extends that Section. -/
theorem C9_accumulation_frame_witness :
    (∃ tail, ([Block.section "ax"] : List Block) = [Block.section "a"] ++ tail) ∨
    (∃ pre s content, ([Block.section "a"] : List Block) = pre ++ [Block.section s] ∧
       ([Block.section "ax"] : List Block) = pre ++ [Block.section (s ++ content)]) :=
  C9_accumulation_frame.2 (.txt "x" "x") [Block.section "a"] 0 [Block.section "ax"] 0 rfl

/-- C10: `parseBlocks` is deterministic across sequential invocations: any
sequence of earlier invocations (successful or failed) leaves the
module-level recursion counter where it started, so a later run on the same
token tree and options returns the same value. -/
theorem C10_deterministic_across_invocations :
    ∀ (prior : List (List MToken × ParsingOptions)) (tokens : List MToken)
      (options : ParsingOptions) (s : Nat),
      parseBlocksS tokens options (runPrior prior s) = parseBlocksS tokens options s ∧
      (parseBlocksS tokens options s).2 = s := by
  intro prior tokens options s
  exact ⟨by rw [runPrior_eq], parseBlocksS_state tokens options s⟩




/-- A mergeable inline token (plain text, emphasis, strong) always goes
through `addMrkdwn` on success. -/
theorem mergeable_step (t : PhrasingToken) (acc : List Block) (d : Nat)
    (acc2 : List Block) (d2 : Nat) (hm : isMergeableInline t = true)
    (h : parsePhrasingContentS t acc d = (Except.ok acc2, d2)) :
    ∃ c, acc2 = addMrkdwn c acc := by
  cases t <;>
    first
    | (simp only [parsePhrasingContentS] at h
       split at h
       · simp only [Prod.mk.injEq, Except.ok.injEq] at h
         exact ⟨_, h.1.symm⟩
       · simp at h)
    | simp [isMergeableInline] at hm

/-- Processing mergeable tokens starting from a one-Section accumulator
keeps the accumulator a single Section. -/
theorem parseParagraphAux_single (ts : List PhrasingToken) :
    ∀ d s acc2 d2, (∀ t ∈ ts, isMergeableInline t = true) →
    parseParagraphAuxS ts [Block.section s] d = (Except.ok acc2, d2) →
    ∃ s2, acc2 = [Block.section s2] := by
  induction ts with
  | nil =>
    intro d s acc2 d2 _ h
    simp only [parseParagraphAuxS, Prod.mk.injEq, Except.ok.injEq] at h
    exact ⟨s, h.1.symm⟩
  | cons t rest ih =>
    intro d s acc2 d2 hall h
    simp only [parseParagraphAuxS] at h
    split at h
    · rename_i acc1 dm heq
      obtain ⟨c, hc⟩ := mergeable_step t _ _ _ _ (hall t (by simp)) heq
      have hone : acc1 = [Block.section (s ++ c)] := by rw [hc]; rfl
      rw [hone] at h
      exact ih dm (s ++ c) acc2 d2 (fun t2 ht2 => hall t2 (by simp [ht2])) h
    · simp at h

/-- C1 (amended): a paragraph with a non-empty inline sequence of
plain-text, emphasis and strong tokens produces, when parsing succeeds,
exactly one Section block. -/
theorem C1_single_section_per_paragraph (ts : List PhrasingToken)
    (o : ParsingOptions) (d : Nat) (bs : List Block) (d2 : Nat)
    (hne : ts ≠ [])
    (hkinds : ∀ t ∈ ts, isMergeableInline t = true)
    (hok : parseBlocksS [MToken.paragraph ts] o d = (Except.ok bs, d2)) :
    ∃ s, bs = [Block.section s] := by
  rcases hp : parseParagraphS ts d with ⟨rp, dp⟩
  simp only [parseBlocksS, parseTokenS, hp] at hok
  cases rp with
  | error e => simp at hok
  | ok pbs =>
    simp only [parseBlocksS, List.append_nil, Prod.mk.injEq, Except.ok.injEq] at hok
    obtain ⟨h1, h2⟩ := hok
    subst h1
    cases ts with
    | nil => exact absurd rfl hne
    | cons t rest =>
      simp only [parseParagraphS, parseParagraphAuxS] at hp
      split at hp
      · rename_i acc1 dm heq
        obtain ⟨c, hc⟩ := mergeable_step t [] d acc1 dm (hkinds t (by simp)) heq
        have hone : acc1 = [Block.section (safeTruncate c 3000)] := by rw [hc]; rfl
        rw [hone] at hp
        exact parseParagraphAux_single rest dm _ pbs dp
          (fun t2 ht2 => hkinds t2 (by simp [ht2])) hp
      · simp at hp

/-- Witness for C1 (amended): the paragraph `a**b**` becomes the single
Section `a*b*`. -/
theorem C1_single_section_witness :
    ∃ s, ([Block.section "a*b*"] : List Block) = [Block.section s] :=
  C1_single_section_per_paragraph [.txt "a" "a", .strong "b" [.txt "b" "b"]]
    ⟨none⟩ 0 [Block.section "a*b*"] 0 (by simp) (by decide) rfl

/-- Counterexample for C1 as stated: a paragraph whose (empty) inline token
sequence vacuously consists only of plain-text/emphasis/strong tokens
produces zero Section blocks, not one. -/
theorem C1_counterexample_empty_paragraph :
    (parseBlocksS [MToken.paragraph []] ⟨none⟩ 0).1 = Except.ok ([] : List Block) ∧
    ∀ s : String, (Except.ok ([] : List Block) : Except MackError (List Block))
        ≠ Except.ok [Block.section s] :=
  ⟨rfl, fun s h => by simp at h⟩




/-- `linkFileName` never returns the empty string. -/
theorem linkFileName_ne_empty (href linkText : String) :
    linkFileName href linkText ≠ "" := by
  unfold linkFileName
  split
  · exact extractFileName_ne_empty linkText
  · exact extractFileName_ne_empty href

/-- A link classified as a file pushes a File block carrying the extracted
file name and leaves the counter unchanged. -/
theorem linkFileCase (href : String) (title : Option String) (text : String)
    (tokens : List PhrasingToken) (acc : List Block) (d : Nat)
    (hft : isFileType (detectFileExtension href
        <|> detectFileExtension (joinStr (parsePlainText.parsePlainTextList tokens))) = true) :
    parsePhrasingContentS (.link href title text tokens) acc d =
      (Except.ok (acc ++ [Block.file (linkFileName href
          (joinStr (parsePlainText.parsePlainTextList tokens)))]), d) := by
  have hne := linkFileName_ne_empty href (joinStr (parsePlainText.parsePlainTextList tokens))
  simp [parsePhrasingContentS, hft, fileB, hne]

/-- A link with no recognized extension anywhere renders as a styled link
accumulated via `addMrkdwn`. -/
theorem linkStyledCase (href : String) (title : Option String) (text : String)
    (tokens : List PhrasingToken) (acc : List Block) (d : Nat) (s : String) (d2 : Nat)
    (h1 : isFileType (detectFileExtension href) = false)
    (h2 : isFileType (detectFileExtension
        (joinStr (parsePlainText.parsePlainTextList tokens))) = false)
    (hmk : parseMrkdwnS (.link href title text tokens) d = (Except.ok s, d2)) :
    parsePhrasingContentS (.link href title text tokens) acc d =
      (Except.ok (addMrkdwn s acc), d2) := by
  have hor : isFileType (detectFileExtension href
      <|> detectFileExtension (joinStr (parsePlainText.parsePlainTextList tokens))) = false := by
    rcases hu : detectFileExtension href with _ | e
    · simpa [hu] using h2
    · rw [hu] at h1; simpa [hu] using h1
  simp [parsePhrasingContentS, hor, hmk]

/-- C3: a link token whose URL-path extension — or, when the URL path has
no extension, whose display-text extension — is on the allow-list
(case-insensitively, via `detectFileExtension`) becomes a File block whose
identifier is the extracted file name; a link with no recognized extension
in either place becomes styled-link text merged by `addMrkdwn`, i.e. a
Section when the accumulator is empty. -/
theorem C3_file_link_classification :
    (∀ href title text tokens acc d,
       isFileType (detectFileExtension href
           <|> detectFileExtension (joinStr (parsePlainText.parsePlainTextList tokens))) = true →
       parsePhrasingContentS (.link href title text tokens) acc d =
         (Except.ok (acc ++ [Block.file (linkFileName href
             (joinStr (parsePlainText.parsePlainTextList tokens)))]), d)) ∧
    (∀ href title text tokens acc d s d2,
       isFileType (detectFileExtension href) = false →
       isFileType (detectFileExtension
           (joinStr (parsePlainText.parsePlainTextList tokens))) = false →
       parseMrkdwnS (.link href title text tokens) d = (Except.ok s, d2) →
       parsePhrasingContentS (.link href title text tokens) acc d =
         (Except.ok (addMrkdwn s acc), d2)) ∧
    (∀ s, addMrkdwn s [] = [Block.section (safeTruncate s 3000)]) :=
  ⟨fun href title text tokens acc d hft => linkFileCase href title text tokens acc d hft,
   fun href title text tokens acc d s d2 h1 h2 hmk =>
     linkStyledCase href title text tokens acc d s d2 h1 h2 hmk,
   fun _ => rfl⟩

/-- Witness for C3: `[report.pdf](https://example.com/files/report.pdf)`
becomes a File block named `report.pdf`; `[example](https://example.com)`
becomes the Section `<https://example.com|example> `. -/
theorem C3_file_link_classification_witness :
    parsePhrasingContentS
        (.link "https://example.com/files/report.pdf" none "report.pdf"
          [.txt "report.pdf" "report.pdf"]) [] 0 =
      (Except.ok ([] ++ [Block.file (linkFileName "https://example.com/files/report.pdf"
          (joinStr (parsePlainText.parsePlainTextList
            [.txt "report.pdf" "report.pdf"])))]), 0) ∧
    parsePhrasingContentS
        (.link "https://example.com" none "example" [.txt "example" "example"]) [] 0 =
      (Except.ok (addMrkdwn "<https://example.com|example> " []), 0) :=
  ⟨C3_file_link_classification.1 "https://example.com/files/report.pdf" none "report.pdf"
      [.txt "report.pdf" "report.pdf"] [] 0 (by rfl),
   C3_file_link_classification.2.1 "https://example.com" none "example"
      [.txt "example" "example"] [] 0 "<https://example.com|example> " 0
      (by rfl) (by rfl) (by rfl)⟩




/-- C6: the phrase renderer's kind-to-markup mapping.  With the children's
rendering given (and the depth check passing), a link with a valid URL
wraps as angle-bracket markup with a trailing space, a link with an invalid
URL is the unwrapped child concatenation, emphasis/strong/strike wrap in
`_`/`*`/`~`, a code span wraps its verbatim text in backticks without
recursing, and plain text is returned verbatim. -/
theorem C6_phrase_renderer_mapping :
    (∀ href title text tokens d s, validateUrl href = true →
       (parseMrkdwnListS tokens (d + 1)).1 = Except.ok s →
       d + 1 ≤ MAX_RECURSION_DEPTH →
       parseMrkdwnS (.link href title text tokens) d =
         (Except.ok ("<" ++ href ++ "|" ++ s ++ "> "), d)) ∧
    (∀ href title text tokens d s, validateUrl href = false →
       (parseMrkdwnListS tokens (d + 1)).1 = Except.ok s →
       d + 1 ≤ MAX_RECURSION_DEPTH →
       parseMrkdwnS (.link href title text tokens) d = (Except.ok s, d)) ∧
    (∀ text tokens d s,
       (parseMrkdwnListS tokens (d + 1)).1 = Except.ok s →
       d + 1 ≤ MAX_RECURSION_DEPTH →
       parseMrkdwnS (.em text tokens) d = (Except.ok ("_" ++ s ++ "_"), d)) ∧
    (∀ text tokens d s,
       (parseMrkdwnListS tokens (d + 1)).1 = Except.ok s →
       d + 1 ≤ MAX_RECURSION_DEPTH →
       parseMrkdwnS (.strong text tokens) d = (Except.ok ("*" ++ s ++ "*"), d)) ∧
    (∀ text tokens d s,
       (parseMrkdwnListS tokens (d + 1)).1 = Except.ok s →
       d + 1 ≤ MAX_RECURSION_DEPTH →
       parseMrkdwnS (.del text tokens) d = (Except.ok ("~" ++ s ++ "~"), d)) ∧
    (∀ t raw d, d + 1 ≤ MAX_RECURSION_DEPTH →
       parseMrkdwnS (.codespan t raw) d = (Except.ok ("`" ++ t ++ "`"), d)) ∧
    (∀ t raw d, d + 1 ≤ MAX_RECURSION_DEPTH →
       parseMrkdwnS (.txt t raw) d = (Except.ok t, d)) := by
  have core : ∀ tokens d s, (parseMrkdwnListS tokens (d + 1)).1 = Except.ok s →
      parseMrkdwnListS tokens (d + 1) = (Except.ok s, d + 1) := by
    intro tokens d s h
    have hst := parseMrkdwnListS_state tokens (d + 1)
    rcases hl : parseMrkdwnListS tokens (d + 1) with ⟨r, dl⟩
    rw [hl] at h hst
    simp only at h hst
    rw [h, hst]
  refine ⟨?_, ?_, ?_, ?_, ?_, ?_, ?_⟩
  · intro href title text tokens d s hval hok hle
    have hcond : (¬href = "" ∧ validateUrl href = true) := by
      refine ⟨fun he => ?_, hval⟩
      subst he
      exact absurd hval (by decide)
    have hd1 : ¬ MAX_RECURSION_DEPTH < d + 1 := by omega
    simp [parseMrkdwnS, core tokens d s hok, hd1, hcond]
  · intro href title text tokens d s hval hok hle
    have hcond : ¬ (¬href = "" ∧ validateUrl href = true) := by
      rintro ⟨-, hv⟩
      rw [hval] at hv
      cases hv
    have hd1 : ¬ MAX_RECURSION_DEPTH < d + 1 := by omega
    simp [parseMrkdwnS, core tokens d s hok, hd1, hcond]
  · intro text tokens d s hok hle
    have hd1 : ¬ MAX_RECURSION_DEPTH < d + 1 := by omega
    simp [parseMrkdwnS, core tokens d s hok, hd1]
  · intro text tokens d s hok hle
    have hd1 : ¬ MAX_RECURSION_DEPTH < d + 1 := by omega
    simp [parseMrkdwnS, core tokens d s hok, hd1]
  · intro text tokens d s hok hle
    have hd1 : ¬ MAX_RECURSION_DEPTH < d + 1 := by omega
    simp [parseMrkdwnS, core tokens d s hok, hd1]
  · intro t raw d hle
    have hd1 : ¬ MAX_RECURSION_DEPTH < d + 1 := by omega
    simp [parseMrkdwnS, hd1]
  · intro t raw d hle
    have hd1 : ¬ MAX_RECURSION_DEPTH < d + 1 := by omega
    simp [parseMrkdwnS, hd1]

/-- Witness for C6: the phrase renderer on `[_d_](https://example.com)`,
`_d_`, `**a**`, `~b~`, a code span and plain text, at concrete inputs. -/
theorem C6_phrase_renderer_mapping_witness :
    parseMrkdwnS (.link "https://example.com" none "d" [.em "d" [.txt "d" "d"]]) 0 =
      (Except.ok ("<" ++ "https://example.com" ++ "|" ++ "_d_" ++ "> "), 0) ∧
    parseMrkdwnS (.link "javascript:alert" none "d" [.txt "d" "d"]) 0 =
      (Except.ok "d", 0) ∧
    parseMrkdwnS (.em "d" [.txt "d" "d"]) 0 = (Except.ok ("_" ++ "d" ++ "_"), 0) ∧
    parseMrkdwnS (.strong "a" [.txt "a" "a"]) 0 = (Except.ok ("*" ++ "a" ++ "*"), 0) ∧
    parseMrkdwnS (.del "b" [.txt "b" "b"]) 0 = (Except.ok ("~" ++ "b" ++ "~"), 0) ∧
    parseMrkdwnS (.codespan "c" "`c`") 0 = (Except.ok ("`" ++ "c" ++ "`"), 0) ∧
    parseMrkdwnS (.txt "t" "t") 0 = (Except.ok "t", 0) :=
  ⟨C6_phrase_renderer_mapping.1 "https://example.com" none "d" [.em "d" [.txt "d" "d"]]
      0 "_d_" (by rfl) (by rfl) (by decide),
   C6_phrase_renderer_mapping.2.1 "javascript:alert" none "d" [.txt "d" "d"]
      0 "d" (by rfl) (by rfl) (by decide),
   C6_phrase_renderer_mapping.2.2.1 "d" [.txt "d" "d"] 0 "d" (by rfl) (by decide),
   C6_phrase_renderer_mapping.2.2.2.1 "a" [.txt "a" "a"] 0 "a" (by rfl) (by decide),
   C6_phrase_renderer_mapping.2.2.2.2.1 "b" [.txt "b" "b"] 0 "b" (by rfl) (by decide),
   C6_phrase_renderer_mapping.2.2.2.2.2.1 "c" "`c`" 0 (by decide),
   C6_phrase_renderer_mapping.2.2.2.2.2.2 "t" "t" 0 (by decide)⟩




/-- Counterexample for C7 as stated: for the link
`[file.xyz](https://example.com/doc.pdf)` the URL extension `pdf` triggers
the File block, the display text carries the unrecognized extension `xyz`,
and the code still derives the identifier from the text (`file.xyz`), not
from the URL's last path segment (`doc.pdf`) as the claim requires. -/
theorem C7_counterexample_unrecognized_text_extension :
    parsePhrasingContentS
        (.link "https://example.com/doc.pdf" none "file.xyz" [.txt "file.xyz" "file.xyz"])
        [] 0
      = (Except.ok [Block.file "file.xyz"], 0) ∧
    isFileType (detectFileExtension "file.xyz") = false ∧
    Block.file "file.xyz" ≠ Block.file "doc.pdf" :=
  ⟨rfl, rfl, by decide⟩

/-- C7 (amended): for a link classified as a file, the identifier comes
from the display text whenever the text carries any extension (recognized
or not), and otherwise from the URL's last path segment with query string
and fragment stripped; `extractFileName` defaults to `"Document"` exactly
when that segment is empty; and the modelled File-block construction cannot
fail on these names, the styled-link degradation branch being unreachable. -/
theorem C7_file_identifier_choice :
    (∀ href title text tokens acc d,
       isFileType (detectFileExtension href
           <|> detectFileExtension (joinStr (parsePlainText.parsePlainTextList tokens))) = true →
       parsePhrasingContentS (.link href title text tokens) acc d =
         (Except.ok (acc ++ [Block.file
            (if (detectFileExtension (joinStr (parsePlainText.parsePlainTextList tokens))).isSome
             then extractFileName (joinStr (parsePlainText.parsePlainTextList tokens))
             else extractFileName href)]), d)) ∧
    (∀ href, lastSeg [] (charsBefore '#' (charsBefore '?' href.data)) = [] →
       extractFileName href = "Document") ∧
    (∀ href linkText, fileB (linkFileName href linkText) =
       Except.ok (Block.file (linkFileName href linkText))) := by
  refine ⟨?_, ?_, ?_⟩
  · intro href title text tokens acc d hft
    have h := linkFileCase href title text tokens acc d hft
    rw [h]
    rfl
  · intro href h
    simp [extractFileName, h]
  · intro href linkText
    have hne := linkFileName_ne_empty href linkText
    simp [fileB, hne]

/-- Witness for C7 (amended): a plain display text without an extension
falls back to the URL-derived name; a path ending in `/` gives
`"Document"`. -/
theorem C7_file_identifier_choice_witness :
    parsePhrasingContentS
        (.link "https://example.com/files/report.pdf" none "report" [.txt "report" "report"])
        [] 0
      = (Except.ok ([] ++ [Block.file
          (if (detectFileExtension (joinStr (parsePlainText.parsePlainTextList
                [.txt "report" "report"]))).isSome
           then extractFileName (joinStr (parsePlainText.parsePlainTextList
                [.txt "report" "report"]))
           else extractFileName "https://example.com/files/report.pdf")]), 0) ∧
    extractFileName "a/" = "Document" :=
  ⟨C7_file_identifier_choice.1 "https://example.com/files/report.pdf" none "report"
      [.txt "report" "report"] [] 0 (by rfl),
   C7_file_identifier_choice.2.1 "a/" (by rfl)⟩




/-- Simple-quote path of `parseBlockquote` with a non-empty element list:
one rich-text-quote block. -/
theorem bq_simple_success (toks : List MToken) (d : Nat) (tb : List Block) (d2 : Nat)
    (hop : onlyParas toks = true)
    (htr : blockquoteTrialS toks d = (Except.ok tb, d2))
    (hnf : tb.any isFileBlock = false)
    (hq : buildQuoteElements toks ≠ []) :
    parseBlockquoteS toks d = (Except.ok [richTextQuoteB (buildQuoteElements toks)], d2) := by
  have hlen : 0 < (buildQuoteElements toks).length := List.length_pos.mpr hq
  simp only [parseBlockquoteS]
  simp [hop, htr, hnf, hlen]

/-- Simple-quote path with an empty element list: the empty block list. -/
theorem bq_simple_empty (toks : List MToken) (d : Nat) (tb : List Block) (d2 : Nat)
    (hop : onlyParas toks = true)
    (htr : blockquoteTrialS toks d = (Except.ok tb, d2))
    (hnf : tb.any isFileBlock = false)
    (hq : buildQuoteElements toks = []) :
    parseBlockquoteS toks d = (Except.ok [], d2) := by
  simp only [parseBlockquoteS]
  simp [hop, htr, hnf, hq]

/-- Complex path when some child is neither paragraph nor bare text. -/
theorem bq_complex (toks : List MToken) (d : Nat) (bs : List Block) (d2 : Nat)
    (hop : onlyParas toks = false)
    (hc : bqChildrenS toks d = (Except.ok bs, d2)) :
    parseBlockquoteS toks d = (Except.ok (bs.map quoteFormat), d2) := by
  simp only [parseBlockquoteS]
  simp [hop, hc]

/-- Complex path when the trial parse finds a File block. -/
theorem bq_complex_file (toks : List MToken) (d : Nat) (tb : List Block) (d2 : Nat)
    (bs : List Block) (d3 : Nat)
    (hop : onlyParas toks = true)
    (htr : blockquoteTrialS toks d = (Except.ok tb, d2))
    (hf : tb.any isFileBlock = true)
    (hc : bqChildrenS toks d2 = (Except.ok bs, d3)) :
    parseBlockquoteS toks d = (Except.ok (bs.map quoteFormat), d3) := by
  simp only [parseBlockquoteS]
  simp [hop, htr, hf, hc]




/-- Counterexample for C4 as stated: a blockquote whose single child is a
paragraph with no inline tokens satisfies the claim's hypotheses (all
children are paragraphs, the trial parse yields no File block) yet returns
the empty block list, not one rich-text-quote block. -/
theorem C4_counterexample_empty_quote :
    parseBlockquoteS [MToken.paragraph []] 0 = (Except.ok [], 0) ∧
    ∀ els, (Except.ok ([] : List Block) : Except MackError (List Block))
        ≠ Except.ok [Block.rtQuote els] :=
  ⟨bq_simple_empty [MToken.paragraph []] 0 [] 0 rfl rfl rfl rfl,
   fun els h => by simp at h⟩

/-- C4 (amended): when every child of the blockquote is a paragraph or bare
text and the trial parse yields no File block, the builder returns exactly
one rich-text-quote block provided the collected elements are non-empty
(and the empty list otherwise), with a newline separator element between
non-empty paragraphs; in every other case it returns the flattened
per-child block sequence post-processed by `quoteFormat`, which prefixes
`"> "` and requotes internal newlines on Sections with non-empty text and
passes every other block through unchanged. -/
theorem C4_blockquote_builder :
    (∀ toks d tb d2, onlyParas toks = true →
       blockquoteTrialS toks d = (Except.ok tb, d2) →
       tb.any isFileBlock = false →
       buildQuoteElements toks ≠ [] →
       parseBlockquoteS toks d =
         (Except.ok [richTextQuoteB (buildQuoteElements toks)], d2)) ∧
    (∀ toks d tb d2, onlyParas toks = true →
       blockquoteTrialS toks d = (Except.ok tb, d2) →
       tb.any isFileBlock = false →
       buildQuoteElements toks = [] →
       parseBlockquoteS toks d = (Except.ok [], d2)) ∧
    (∀ ts1 ts2 : List PhrasingToken, ts1 ≠ [] → ts2 ≠ [] →
       buildQuoteElements [MToken.paragraph ts1, MToken.paragraph ts2] =
         tokensToRichTextElements ts1 ++ [RTElement.text "\n" none]
           ++ tokensToRichTextElements ts2) ∧
    (∀ toks d bs d2, onlyParas toks = false →
       bqChildrenS toks d = (Except.ok bs, d2) →
       parseBlockquoteS toks d = (Except.ok (bs.map quoteFormat), d2)) ∧
    (∀ toks d tb d2 bs d3, onlyParas toks = true →
       blockquoteTrialS toks d = (Except.ok tb, d2) →
       tb.any isFileBlock = true →
       bqChildrenS toks d2 = (Except.ok bs, d3) →
       parseBlockquoteS toks d = (Except.ok (bs.map quoteFormat), d3)) ∧
    (∀ t : String, t ≠ "" →
       quoteFormat (Block.section t) = Block.section ("> " ++ replaceNl t)) ∧
    (quoteFormat (Block.section "") = Block.section "") ∧
    (∀ b : Block, isSectionBlock b = false → quoteFormat b = b) := by
  refine ⟨bq_simple_success, bq_simple_empty, ?_, bq_complex, bq_complex_file,
    ?_, rfl, ?_⟩
  · intro ts1 ts2 h1 h2
    have he1 : ts1.isEmpty = false := by
      cases ts1
      · exact absurd rfl h1
      · rfl
    have he2 : ts2.isEmpty = false := by
      cases ts2
      · exact absurd rfl h2
      · rfl
    simp [buildQuoteElements, he1, he2]
  · intro t ht
    simp [quoteFormat, ht]
  · intro b hb
    cases b
    case _ t => simp [isSectionBlock] at hb
    all_goals rfl

/-- Witness for C4 (amended): a blockquote of two one-word paragraphs
collapses to one rich-text-quote block with a newline separator, and a
blockquote containing a code block takes the heterogeneous path with its
Section prefixed. -/
theorem C4_blockquote_builder_witness :
    parseBlockquoteS [MToken.paragraph [.txt "hi" "hi"]] 0 =
      (Except.ok [richTextQuoteB (buildQuoteElements [MToken.paragraph [.txt "hi" "hi"]])], 0) ∧
    buildQuoteElements [MToken.paragraph [.txt "a" "a"], MToken.paragraph [.txt "b" "b"]] =
      tokensToRichTextElements [.txt "a" "a"] ++ [RTElement.text "\n" none]
        ++ tokensToRichTextElements [.txt "b" "b"] ∧
    parseBlockquoteS [MToken.code "c", MToken.paragraph [.txt "hi" "hi"]] 0 =
      (Except.ok ([Block.rtCode "c", Block.section "hi"].map quoteFormat), 0) ∧
    quoteFormat (Block.section "hi") = Block.section ("> " ++ replaceNl "hi") :=
  ⟨C4_blockquote_builder.1 [MToken.paragraph [.txt "hi" "hi"]] 0
      [Block.section "hi"] 0 rfl rfl rfl (by simp [buildQuoteElements,
        tokensToRichTextElements, tokenToRichTextElements]),
   C4_blockquote_builder.2.2.1 [.txt "a" "a"] [.txt "b" "b"] (by simp) (by simp),
   C4_blockquote_builder.2.2.2.1 [MToken.code "c", MToken.paragraph [.txt "hi" "hi"]] 0
      [Block.rtCode "c", Block.section "hi"] 0 rfl
      (by simp [bqChildrenS, bqChildBlocksS, parseParagraphS, parseParagraphAuxS,
        parsePhrasingContentS, parseMrkdwnS, addMrkdwn, sectionB, safeTruncate,
        richTextCodeB, MAX_RECURSION_DEPTH]),
   C4_blockquote_builder.2.2.2.2.2.1 "hi" (by simp)⟩




/-- Dropping a token that routes to the empty block list does not change
the blocks of the rest of the document (nor the counter). -/
theorem parseBlocksS_skip_empty (t0 : MToken)
    (h : ∀ o d, parseTokenS t0 o d = (Except.ok [], d)) :
    ∀ pre post o d, parseBlocksS (pre ++ t0 :: post) o d = parseBlocksS (pre ++ post) o d := by
  intro pre post o d
  induction pre generalizing d with
  | nil =>
    simp only [List.nil_append, parseBlocksS, h]
    rcases hr : parseBlocksS post o d with ⟨r, d3⟩
    cases r <;> simp
  | cons p rest ih =>
    simp only [List.cons_append, parseBlocksS]
    rcases hp : parseTokenS p o d with ⟨rp, dp⟩
    cases rp <;> simp [ih]

/-- C8: a thrown sub-parse of an embedded-markup island is caught and the
island contributes no blocks, leaving every other token's blocks unchanged;
inside a successfully parsed island an `img` entry without a valid source
URL is filtered out while its neighbours are kept, and a `video` entry
whose construction fails is dropped alone. -/
theorem C8_html_island_error_containment :
    (∀ msg, parseHTMLF (Except.error msg) = []) ∧
    (∀ msg pre post o d,
       parseBlocksS (pre ++ MToken.html (Except.error msg) :: post) o d =
         parseBlocksS (pre ++ post) o d) ∧
    (∀ pre bad post, (∀ u, bad.getStr "@_src" = some u → validateUrl u = false) →
       imgBlocksOf (pre ++ bad :: post) = imgBlocksOf (pre ++ post)) ∧
    (∀ pre bad post, videoEntry bad = none →
       videoBlocksOf (pre ++ bad :: post) = videoBlocksOf (pre ++ post)) := by
  refine ⟨fun msg => rfl, ?_, ?_, ?_⟩
  · intro msg pre post o d
    exact parseBlocksS_skip_empty (MToken.html (Except.error msg))
      (fun o2 d2 => rfl) pre post o d
  · intro pre bad post h
    have hbad : imgEntry bad = none := by
      unfold imgEntry
      rcases hu : bad.getStr "@_src" with _ | u
      · rfl
      · simp [h u hu]
    simp [imgBlocksOf, List.filterMap_append, List.filterMap_cons, hbad]
  · intro pre bad post h
    simp [videoBlocksOf, List.filterMap_append, List.filterMap_cons, h]

/-- Witness for C8: with one valid image on each side, the island drops
only the `javascript:`-source image; a `video` tag with no source is
dropped while a valid one survives. -/
theorem C8_html_island_error_containment_witness :
    imgBlocksOf
        [XmlValue.obj [("@_src", XmlValue.str "https://example.com/a.png")],
         XmlValue.obj [("@_src", XmlValue.str "javascript:alert-1")],
         XmlValue.obj [("@_src", XmlValue.str "https://example.com/b.png")]] =
      imgBlocksOf
        [XmlValue.obj [("@_src", XmlValue.str "https://example.com/a.png")],
         XmlValue.obj [("@_src", XmlValue.str "https://example.com/b.png")]] ∧
    videoBlocksOf
        [XmlValue.obj [("@_src", XmlValue.str "https://example.com/v.mp4")],
         XmlValue.obj []] =
      videoBlocksOf [XmlValue.obj [("@_src", XmlValue.str "https://example.com/v.mp4")]] :=
  ⟨C8_html_island_error_containment.2.2.1
      [XmlValue.obj [("@_src", XmlValue.str "https://example.com/a.png")]]
      (XmlValue.obj [("@_src", XmlValue.str "javascript:alert-1")])
      [XmlValue.obj [("@_src", XmlValue.str "https://example.com/b.png")]]
      (by intro u hu
          simp [XmlValue.getStr, XmlValue.getField] at hu
          subst hu
          rfl),
   C8_html_island_error_containment.2.2.2
      [XmlValue.obj [("@_src", XmlValue.str "https://example.com/v.mp4")]]
      (XmlValue.obj []) [] rfl⟩


/-- End-to-end check from the repository's parser test: the token tree of
`**a ~b~** c[*d*](https://example.com)` yields one Section whose text is
`*a ~b~* c<https://example.com|_d_> `. -/
theorem endToEnd_basic_markdown :
    parseBlocksS
        [MToken.paragraph
          [.strong "a ~b~" [.txt "a " "a ", .del "b" [.txt "b" "b"]],
           .txt " c" " c",
           .link "https://example.com" none "*d*" [.em "d" [.txt "d" "d"]]]]
        ⟨none⟩ 0 =
      (Except.ok [Block.section "*a ~b~* c<https://example.com|_d_> "], 0) := by
  rfl

end Mack
